import Mathlib

/-!
# Package inputs: unmarshalling named string inputs into a tagged struct

A shallow embedding of `convert.go` and `unmarshal.go`.

* Go strings are Lean strings (valid UTF-8 text); a rune is a `Char`.
* The functions of the Go standard library that the package calls but that
  are not part of it (the `strconv` and `time` parsers, the method-set test
  of `reflect`) are collected in the structure `Runtime` and every
  definition takes them as a parameter.
* `Unmarshal` mutates the struct behind its argument.  Here it returns the
  struct after the call together with the outcome and the sequence of
  calls (`GetInput`, `convert`, `Set`) it made.
-/

namespace inputs

/-! ## Errors -/

/-- Go error values.  `errors.New` and `fmt.Errorf` without `%w` build an
`errorString`; `fmt.Errorf` with one `%w` builds a `wrapError` that keeps the
formatted message and the wrapped error. -/
inductive GoError
  | errorString (s : String)
  | wrapError (msg : String) (err : GoError)
  deriving DecidableEq, Repr

/-- The method `Error()`: the message of an error. -/
def GoError.Error : GoError → String
  | GoError.errorString s => s
  | GoError.wrapError msg _ => msg

/-- The method `Unwrap()`, as used by `errors.Unwrap`. -/
def GoError.Unwrap : GoError → Option GoError
  | GoError.errorString _ => none
  | GoError.wrapError _ err => some err

deriving instance DecidableEq for Except

/-! ## Types and values seen through reflect -/

/-- The constants of `reflect.Kind`. -/
inductive Kind
  | Invalid | Bool | Int | Int8 | Int16 | Int32 | Int64
  | Uint | Uint8 | Uint16 | Uint32 | Uint64 | Uintptr
  | Float32 | Float64 | Complex64 | Complex128
  | Array | Chan | Func | Interface | Map | Pointer | Slice
  | String | Struct | UnsafePointer
  deriving DecidableEq, Repr

/-- The text of a kind, Go: the method `String()` of `reflect.Kind`, which
`%v` prints. -/
def kindString : Kind → String
  | Kind.Invalid => "invalid"
  | Kind.Bool => "bool"
  | Kind.Int => "int"
  | Kind.Int8 => "int8"
  | Kind.Int16 => "int16"
  | Kind.Int32 => "int32"
  | Kind.Int64 => "int64"
  | Kind.Uint => "uint"
  | Kind.Uint8 => "uint8"
  | Kind.Uint16 => "uint16"
  | Kind.Uint32 => "uint32"
  | Kind.Uint64 => "uint64"
  | Kind.Uintptr => "uintptr"
  | Kind.Float32 => "float32"
  | Kind.Float64 => "float64"
  | Kind.Complex64 => "complex64"
  | Kind.Complex128 => "complex128"
  | Kind.Array => "array"
  | Kind.Chan => "chan"
  | Kind.Func => "func"
  | Kind.Interface => "interface"
  | Kind.Map => "map"
  | Kind.Pointer => "ptr"
  | Kind.Slice => "slice"
  | Kind.String => "string"
  | Kind.Struct => "struct"
  | Kind.UnsafePointer => "unsafe.Pointer"

/-- A `reflect.Type`, as far as the package observes it: the import path of
the package that declares the type (empty for predeclared and unnamed
types), the text `Type.String()` prints, and `Type.Kind()`.  Two types are
identical when all three agree; the printed text alone does not identify a
type, since it shows only the last element of the import path. -/
structure RType where
  pkgPath : String
  str : String
  kind : Kind
  deriving DecidableEq, Repr

/-- A `float32`, by its IEEE-754 bit pattern. -/
structure Float32 where
  bits : Nat
  deriving DecidableEq, Repr

/-- A `float64`, by its IEEE-754 bit pattern. -/
structure Float64 where
  bits : Nat
  deriving DecidableEq, Repr

/-- A `time.Time`: civil date and time of day, nanoseconds, and the offset
of its zone in seconds east of UTC. -/
structure Time where
  year : Int
  month : Nat
  day : Nat
  hour : Nat
  minute : Nat
  second : Nat
  nsec : Nat
  offset : Int
  deriving DecidableEq, Repr

/-- The contents of a struct field.  The first nine constructors are the
values `convert` can return; `other` stands for a value of any other type. -/
inductive Value
  | bool (b : Bool)
  | float32 (x : Float32)
  | float64 (x : Float64)
  | int (n : Int)
  | string (s : String)
  | duration (nanoseconds : Int)
  | time (t : Time)
  | strings (fields : List String)
  | bytes (b : List UInt8)
  | other (typ : RType) (repr : String)
  deriving DecidableEq, Repr

/-- The dynamic type of a value: `reflect.ValueOf(value).Type()`. -/
def Value.typeOf : Value → RType
  | Value.bool _ => ⟨"", "bool", Kind.Bool⟩
  | Value.float32 _ => ⟨"", "float32", Kind.Float32⟩
  | Value.float64 _ => ⟨"", "float64", Kind.Float64⟩
  | Value.int _ => ⟨"", "int", Kind.Int⟩
  | Value.string _ => ⟨"", "string", Kind.String⟩
  | Value.duration _ => ⟨"time", "time.Duration", Kind.Int64⟩
  | Value.time _ => ⟨"time", "time.Time", Kind.Struct⟩
  | Value.strings _ => ⟨"", "[]string", Kind.Slice⟩
  | Value.bytes _ => ⟨"", "[]uint8", Kind.Slice⟩
  | Value.other typ _ => typ

/-- One field of the destination struct, as `reflectValue.Field(index)` and
`reflectType.Field(index)` present it. -/
structure Field where
  /-- The field name: `reflectType.Field(index).Name`. -/
  name : String
  /-- The declared type: `field.Type()`. -/
  typ : RType
  /-- The result of `Tag.Lookup("input")`: `none` when the field has no
  `input` tag. -/
  tag : Option String
  /-- The result of `field.CanSet()`: the field is exported. -/
  canSet : Bool
  /-- The current contents of the field. -/
  value : Value
  deriving DecidableEq, Repr

/-- A non-nil interface value as reflect reports it.  `elem` and `target`
are read only when `typ` is a pointer type. -/
structure Iface where
  /-- The dynamic type: `reflect.TypeOf(v)`. -/
  typ : RType
  /-- The element type of a pointer type: `reflect.TypeOf(v).Elem()`. -/
  elem : RType
  /-- The pointee: `none` for a nil pointer (`IsNil()`), otherwise the
  fields of the struct pointed to, in declaration order. -/
  target : Option (List Field)
  deriving DecidableEq, Repr

/-- A value of type `any`; `none` is the nil interface, for which
`reflect.TypeOf` returns nil. -/
abbrev GoAny := Option Iface

/-! ## The standard library -/

/-- The standard-library functions the package calls. -/
structure Runtime where
  /-- Go: `strconv.ParseBool`. -/
  ParseBool : String → Except GoError Bool
  /-- Go: `strconv.ParseFloat(s, bitSize)`. -/
  ParseFloat : String → Nat → Except GoError Float64
  /-- The conversion `float32(x)` of a `float64`. -/
  toFloat32 : Float64 → Float32
  /-- Go: `strconv.Atoi`. -/
  Atoi : String → Except GoError Int
  /-- Go: `time.ParseDuration`, in nanoseconds. -/
  ParseDuration : String → Except GoError Int
  /-- Go: `time.Parse(time.RFC3339, s)`. -/
  ParseRFC3339 : String → Except GoError Time
  /-- The method-set test of reflect: `implements rt V T` when `T` is an
  interface type and `V` implements it. -/
  Implements : RType → RType → Bool

/-- Go: `unicode.IsSpace`. -/
def isSpace (r : Char) : Bool :=
  let n := r.toNat
  if n ≤ 0xFF then
    n == 0x09 || n == 0x0A || n == 0x0B || n == 0x0C || n == 0x0D
      || n == 0x20 || n == 0x85 || n == 0xA0
  else
    n == 0x1680 || (0x2000 ≤ n && n ≤ 0x200A) || n == 0x2028 || n == 0x2029
      || n == 0x202F || n == 0x205F || n == 0x3000

/-- Go: `strings.TrimSpace`, on the runes of the string: the longest
prefix and the longest suffix of white space are removed. -/
def trimSpace (s : List Char) : List Char :=
  ((s.dropWhile isSpace).reverse.dropWhile isSpace).reverse

/-- The loop of `strings.FieldsFunc`.  `start` is the field being read
(`none` when the scan is between fields, Go: `start < 0`). -/
def fieldsFuncLoop (f : Char → Bool) : List Char → Option (List Char) → List (List Char)
  | [], none => []
  | [], some cur => [cur]
  | r :: rest, start =>
    if f r then
      match start with
      | some cur => cur :: fieldsFuncLoop f rest none
      | none => fieldsFuncLoop f rest none
    else
      match start with
      | some cur => fieldsFuncLoop f rest (some (cur ++ [r]))
      | none => fieldsFuncLoop f rest (some [r])

/-- Go: `strings.FieldsFunc`: the maximal runs of runes that do not satisfy
`f`, in order. -/
def fieldsFunc (s : List Char) (f : Char → Bool) : List (List Char) :=
  fieldsFuncLoop f s none

/-- Go: `strings.CutSuffix`. -/
def cutSuffix (s suffix : String) : String × Bool :=
  if suffix.data.isSuffixOf s.data then
    (String.mk (s.data.take (s.data.length - suffix.data.length)), true)
  else
    (s, false)

/-! ## convert.go -/

/-- The source function `split`: split the given string on newlines and commas, trim, and
return the non-blank fields. -/
def split (value : String) : List String :=
  ((fieldsFunc value.data (fun r => r == '\n' || r == ',')).map trimSpace
    |>.filter (fun field => field ≠ [])).map String.mk

/-- The source function `convert`. -/
def convert (rt : Runtime) (kind value : String) : Except GoError Value :=
  if kind = "bool" then
    (rt.ParseBool value).map Value.bool
  else if kind = "float32" then
    match rt.ParseFloat value 32 with
    | Except.error err => Except.error err
    | Except.ok x => Except.ok (Value.float32 (rt.toFloat32 x))
  else if kind = "float64" then
    (rt.ParseFloat value 64).map Value.float64
  else if kind = "int" then
    (rt.Atoi value).map Value.int
  else if kind = "string" then
    Except.ok (Value.string value)
  else if kind = "time.Duration" then
    (rt.ParseDuration value).map Value.duration
  else if kind = "time.Time" then
    (rt.ParseRFC3339 value).map Value.time
  else if kind = "[]string" then
    Except.ok (Value.strings (split value))
  else if kind = "[]uint8" then
    Except.ok (Value.bytes (value.data.flatMap String.utf8EncodeChar))
  else
    Except.error (GoError.errorString ("unsupported type " ++ kind))

/-! ## unmarshal.go -/

/-- The source function `validType`: `none` is the nil error. -/
def validType (v : GoAny) : Option GoError :=
  match v with
  | none =>
    -- Given value was nil.
    some (GoError.errorString "nil")
  | some i =>
    if i.typ.kind ≠ Kind.Pointer then
      -- Given value was not a pointer.
      some (GoError.errorString ("non-pointer " ++ i.typ.str))
    else if i.target.isNone then
      -- Given value was a nil pointer.
      some (GoError.errorString ("nil " ++ i.typ.str))
    else if i.elem.kind ≠ Kind.Struct then
      -- Given value was not a pointer to a struct.
      some (GoError.errorString ("non-struct " ++ kindString i.elem.kind))
    else
      none

/-- The lookup collaborator: the method `GetInput` of the action, from an
input name to its raw value (the empty string when the input is unset). -/
structure Action where
  GetInput : String → String

/-- The calls the body of the loop of `Unmarshal` makes for a field. -/
inductive Call
  | GetInput (name : String)
  | convert (kind value : String)
  | Set (value : Value)
  deriving DecidableEq, Repr

/-- A call together with the index of the field it is made for. -/
abbrev Event := Nat × Call

/-- How a call of a function ends: it returns (`none` is the nil error) or
it panics. -/
inductive Outcome
  | returned (err : Option GoError)
  | panicked (msg : String)
  deriving DecidableEq, Repr

/-- The assignability test of `Value.Set`, for a value `convert` returned
(its type `v` is not an interface type) and the declared type `t` of a field
that prints as the token `convert` was called with: the two types are
identical, or `t` is an interface type that `v` implements. -/
def assignable (rt : Runtime) (v t : RType) : Bool :=
  v == t || (t.kind == Kind.Interface && rt.Implements v t)

/-- The end of one iteration of the loop of `Unmarshal`: go on with the
next field, leaving `field` behind, or leave the function. -/
inductive Step
  | next (field : Field)
  | stop (outcome : Outcome)
  deriving DecidableEq, Repr

/-- The body of the loop of `Unmarshal` for one field: how the iteration
ends and the calls it makes. -/
def fieldStep (rt : Runtime) (action : Action) (field : Field) : Step × List Call :=
  -- Ignore fields that cannot be addressed or are private.
  if ¬ field.canSet then
    (Step.next field, [])
  else
    -- Ignore fields that don't have a struct tag.
    match field.tag with
    | none => (Step.next field, [])
    | some tag =>
      -- Determine if the input was flagged as required.
      let inputName := (cutSuffix tag ",required").1
      let required := (cutSuffix tag ",required").2
      -- Ignore fields that want to be ignored.
      if inputName = "-" then
        (Step.next field, [])
      else
        -- Obtain a value for this field using the tagged input name.
        let inputValue := action.GetInput inputName
        if inputValue = "" then
          if required then
            (Step.stop (Outcome.returned (some (GoError.errorString
                ("no value for required input " ++ inputName)))),
              [Call.GetInput inputName])
          else
            (Step.next field, [Call.GetInput inputName])
        else
          -- Parse the string input value into a concrete type.
          match convert rt field.typ.str inputValue with
          | Except.error err =>
            (Step.stop (Outcome.returned (some (GoError.wrapError
                ("field " ++ field.name ++ ": " ++ err.Error) err))),
              [Call.GetInput inputName, Call.convert field.typ.str inputValue])
          | Except.ok value =>
            -- Finally, update the struct field with the new value.
            if assignable rt value.typeOf field.typ then
              (Step.next { field with value := value },
                [Call.GetInput inputName, Call.convert field.typ.str inputValue,
                  Call.Set value])
            else
              (Step.stop (Outcome.panicked ("reflect.Set: value of type " ++ value.typeOf.str
                  ++ " is not assignable to type " ++ field.typ.str)),
                [Call.GetInput inputName, Call.convert field.typ.str inputValue,
                  Call.Set value])

/-- The state a walk over the fields ends in: the fields, the outcome and
the calls made. -/
structure Run where
  fields : List Field
  outcome : Outcome
  trace : List Event
  deriving DecidableEq, Repr

/-- The loop of `Unmarshal` from `index` on, over the fields not yet
visited. -/
def fieldLoop (rt : Runtime) (action : Action) : Nat → List Field → Run
  | _, [] => ⟨[], Outcome.returned none, []⟩
  | index, field :: rest =>
    match fieldStep rt action field with
    | (Step.next field1, calls) =>
      let r := fieldLoop rt action (index + 1) rest
      ⟨field1 :: r.fields, r.outcome, calls.map (fun c => (index, c)) ++ r.trace⟩
    | (Step.stop outcome, calls) =>
      ⟨field :: rest, outcome, calls.map (fun c => (index, c))⟩

/-- What a call of `Unmarshal` leaves: its argument with the pointee as it is
after the call, the outcome, and the calls made. -/
structure Result where
  v : GoAny
  outcome : Outcome
  trace : List Event
  deriving DecidableEq, Repr

/-- The source function `Unmarshal`. -/
def Unmarshal (rt : Runtime) (action : Action) (v : GoAny) : Result :=
  match validType v with
  | some err => ⟨v, Outcome.returned (some err), []⟩
  | none =>
    match v with
    | none => ⟨v, Outcome.panicked "reflect: call of reflect.Value.Elem on zero Value", []⟩
    | some i =>
      match i.target with
      | none => ⟨v, Outcome.panicked "reflect: call of reflect.Value.Type on zero Value", []⟩
      | some fields =>
        let r := fieldLoop rt action 0 fields
        ⟨some { i with target := some r.fields }, r.outcome, r.trace⟩

/-- The fields of the struct behind a destination (none when there is no
struct). -/
def fieldsOf (v : GoAny) : List Field :=
  match v with
  | some i => i.target.getD []
  | none => []

/-! ## A runtime for the examples -/

/-- The text of a `strconv.NumError`, with its cause wrapped.  The number is
quoted without escapes, which is what `strconv.Quote` does for printable
ASCII text without quotes and backslashes. -/
def numError (fn num cause : String) : GoError :=
  GoError.wrapError ("strconv." ++ fn ++ ": parsing \"" ++ num ++ "\": " ++ cause)
    (GoError.errorString cause)

/-- Go: `strconv.ParseBool`. -/
def parseBool (str : String) : Except GoError Bool :=
  if str ∈ ["1", "t", "T", "TRUE", "true", "True"] then Except.ok true
  else if str ∈ ["0", "f", "F", "FALSE", "false", "False"] then Except.ok false
  else Except.error (numError "ParseBool" str "invalid syntax")

/-- Go: `strconv.Atoi` with a 64-bit `int`: an optional sign and decimal
digits, within the range of `int64`. -/
def atoi (s : String) : Except GoError Int :=
  let (neg, digits) : Bool × List Char :=
    match s.data with
    | '-' :: rest => (true, rest)
    | '+' :: rest => (false, rest)
    | cs => (false, cs)
  if digits = [] ∨ ¬ digits.all Char.isDigit then
    Except.error (numError "Atoi" s "invalid syntax")
  else
    let n : Nat := digits.foldl (fun n c => 10 * n + (c.toNat - 48)) 0
    if neg then
      if n ≤ 2 ^ 63 then Except.ok (-(n : Int))
      else Except.error (numError "Atoi" s "value out of range")
    else
      if n < 2 ^ 63 then Except.ok (n : Int)
      else Except.error (numError "Atoi" s "value out of range")

/-- A runtime for evaluating examples.  `ParseBool` and `Atoi` follow
`strconv`.  The float, duration and time parsers know only the literals of
`TestUnmarshal`, for which they return what Go returns, and reject every
other text; no type implements a foreign interface. -/
def testRuntime : Runtime where
  ParseBool := parseBool
  ParseFloat := fun s bitSize =>
    if s = "3.14" ∧ bitSize = 32 then Except.ok ⟨0x40091EB860000000⟩
    else if s = "3.14159" ∧ bitSize = 64 then Except.ok ⟨0x400921F9F01B866E⟩
    else Except.error (numError "ParseFloat" s "invalid syntax")
  toFloat32 := fun x =>
    if x = ⟨0x40091EB860000000⟩ then ⟨0x4048F5C3⟩ else ⟨0⟩
  Atoi := atoi
  ParseDuration := fun s =>
    if s = "1m9s" then Except.ok 69000000000
    else Except.error (GoError.errorString ("time: invalid duration \"" ++ s ++ "\""))
  ParseRFC3339 := fun s =>
    if s = "2006-01-02T15:04:05Z" then Except.ok ⟨2006, 1, 2, 15, 4, 5, 0, 0⟩
    else Except.error (GoError.errorString ("parsing time \"" ++ s ++ "\""))
  Implements := fun _ _ => false

/-- The lookup of `TestUnmarshal`. -/
def testAction : Action where
  GetInput := fun name =>
    if name = "bool" then "true"
    else if name = "float" then "3.14"
    else if name = "double" then "3.14159"
    else if name = "int" then "9001"
    else if name = "string" then "foo"
    else if name = "duration" then "1m9s"
    else if name = "time" then "2006-01-02T15:04:05Z"
    else if name = "list" then "foo,bar,baz"
    else if name = "raw" then "\x7b\"foo\": \"bar\"\x7d"
    else ""

/-- A freshly declared exported field with an `input` tag, holding `zero`. -/
def taggedField (name : String) (typ : RType) (tag : String) (zero : Value) : Field :=
  ⟨name, typ, some tag, true, zero⟩

/-- The struct `target` of `TestUnmarshal`, all fields zero. -/
def testTarget : List Field :=
  [ taggedField "Bool" ⟨"", "bool", Kind.Bool⟩ "bool" (Value.bool false),
    taggedField "Float32" ⟨"", "float32", Kind.Float32⟩ "float" (Value.float32 ⟨0⟩),
    taggedField "Float64" ⟨"", "float64", Kind.Float64⟩ "double" (Value.float64 ⟨0⟩),
    taggedField "Int" ⟨"", "int", Kind.Int⟩ "int" (Value.int 0),
    taggedField "String" ⟨"", "string", Kind.String⟩ "string" (Value.string ""),
    taggedField "Duration" ⟨"time", "time.Duration", Kind.Int64⟩ "duration" (Value.duration 0),
    taggedField "Time" ⟨"time", "time.Time", Kind.Struct⟩ "time" (Value.time ⟨1, 1, 1, 0, 0, 0, 0, 0⟩),
    taggedField "List" ⟨"", "[]string", Kind.Slice⟩ "list" (Value.strings []),
    taggedField "Bytes" ⟨"", "[]uint8", Kind.Slice⟩ "raw" (Value.bytes []) ]

/-- A non-nil pointer to a struct with the given fields. -/
def pointerTo (fields : List Field) : GoAny :=
  some ⟨⟨"", "*inputs.target", Kind.Pointer⟩, ⟨"inputs", "inputs.target", Kind.Struct⟩, some fields⟩

/-! ## Predicates of the statements and example data -/

/-- The input name of a tag: the first result of `strings.CutSuffix`. -/
def inputNameOf (tag : String) : String := (cutSuffix tag ",required").1

/-- The required flag of a tag: the second result of `strings.CutSuffix`. -/
def requiredOf (tag : String) : Bool := (cutSuffix tag ",required").2

/-- The conditions under which a field is bound to `value`: it is writable,
it carries an input tag whose name is not "-", its raw value is not empty,
and `convert` returns `value` for its declared type and raw value. -/
def Convertible (rt : Runtime) (action : Action) (field : Field) (value : Value) : Prop :=
  field.canSet = true ∧
    match field.tag with
    | none => False
    | some tag =>
      inputNameOf tag ≠ "-" ∧ action.GetInput (inputNameOf tag) ≠ "" ∧
        convert rt field.typ.str (action.GetInput (inputNameOf tag)) = Except.ok value

instance (rt : Runtime) (action : Action) (field : Field) (value : Value) :
    Decidable (Convertible rt action field value) := by
  unfold Convertible
  cases field.tag <;> infer_instance

/-- The eight ways an iteration of the loop can go. -/
inductive StepCase (rt : Runtime) (action : Action) (field : Field) : Prop
  | cannotSet (hc : field.canSet = false)
  | noTag (hc : field.canSet = true) (ht : field.tag = none)
  | ignored (tag : String) (hc : field.canSet = true) (ht : field.tag = some tag)
      (hn : inputNameOf tag = "-")
  | missingRequired (tag : String) (hc : field.canSet = true) (ht : field.tag = some tag)
      (hn : inputNameOf tag ≠ "-") (hv : action.GetInput (inputNameOf tag) = "")
      (hr : requiredOf tag = true)
  | missingOptional (tag : String) (hc : field.canSet = true) (ht : field.tag = some tag)
      (hn : inputNameOf tag ≠ "-") (hv : action.GetInput (inputNameOf tag) = "")
      (hr : requiredOf tag = false)
  | convertError (tag : String) (err : GoError) (hc : field.canSet = true)
      (ht : field.tag = some tag) (hn : inputNameOf tag ≠ "-")
      (hv : action.GetInput (inputNameOf tag) ≠ "")
      (he : convert rt field.typ.str (action.GetInput (inputNameOf tag)) = Except.error err)
  | set (tag : String) (value : Value) (hc : field.canSet = true)
      (ht : field.tag = some tag) (hn : inputNameOf tag ≠ "-")
      (hv : action.GetInput (inputNameOf tag) ≠ "")
      (he : convert rt field.typ.str (action.GetInput (inputNameOf tag)) = Except.ok value)
      (ha : assignable rt value.typeOf field.typ = true)
  | setPanics (tag : String) (value : Value) (hc : field.canSet = true)
      (ht : field.tag = some tag) (hn : inputNameOf tag ≠ "-")
      (hv : action.GetInput (inputNameOf tag) ≠ "")
      (he : convert rt field.typ.str (action.GetInput (inputNameOf tag)) = Except.ok value)
      (ha : assignable rt value.typeOf field.typ = false)

/-- The nine type tokens `convert` knows. -/
def supportedTypes : List String :=
  ["bool", "float32", "float64", "int", "string", "time.Duration", "time.Time", "[]string",
    "[]uint8"]

/-- The values `TestUnmarshal` expects in the fields of `target`. -/
def testValues : List Value :=
  [ Value.bool true, Value.float32 ⟨0x4048F5C3⟩, Value.float64 ⟨0x400921F9F01B866E⟩,
    Value.int 9001, Value.string "foo", Value.duration 69000000000,
    Value.time ⟨2006, 1, 2, 15, 4, 5, 0, 0⟩, Value.strings ["foo", "bar", "baz"],
    Value.bytes [123, 34, 102, 111, 111, 34, 58, 32, 34, 98, 97, 114, 34, 125] ]

/-- A struct with one field whose type is declared in another package named
`time`: it prints as `time.Duration` and is not the type `time.Duration` of
the standard library. -/
def foreignDuration : List Field :=
  [ taggedField "Timeout" ⟨"example.com/clock/time", "time.Duration", Kind.Int64⟩ "duration"
      (Value.other ⟨"example.com/clock/time", "time.Duration", Kind.Int64⟩ "0") ]

/-- A struct with one field whose type is declared in a package named
`clock`: it prints as `clock.Duration`, which is none of the tokens of
`convert`. -/
def clockDuration : List Field :=
  [ taggedField "Timeout" ⟨"example.com/clock", "clock.Duration", Kind.Int64⟩ "duration"
      (Value.other ⟨"example.com/clock", "clock.Duration", Kind.Int64⟩ "0") ]

/-- A struct with one field whose type is declared in a package named
`clock`: it prints as `clock.Time`, which is none of the tokens of
`convert`. -/
def clockTime : List Field :=
  [ taggedField "Started" ⟨"example.com/clock", "clock.Time", Kind.Struct⟩ "time"
      (Value.other ⟨"example.com/clock", "clock.Time", Kind.Struct⟩ "zero") ]

/-- A lookup given by a table; an input that is not in the table is unset. -/
def actionOf (table : List (String × String)) : Action where
  GetInput := fun name => (table.lookup name).getD ""

/-- The type `int`. -/
def intType : RType := ⟨"", "int", Kind.Int⟩

/-- The type `string`. -/
def stringType : RType := ⟨"", "string", Kind.String⟩

/-- The type `uint`, for which `convert` has no rule. -/
def uintType : RType := ⟨"", "uint", Kind.Uint⟩

/-- The example field `Name string` with the tag `name`, empty. -/
def nameField : Field := taggedField "Name" stringType "name" (Value.string "")

/-- The example field `Count int` with the tag `count`, zero. -/
def countField : Field := taggedField "Count" intType "count" (Value.int 0)

/-- The example field `Level int` with the tag `level`, zero. -/
def levelField : Field := taggedField "Level" intType "level" (Value.int 0)

/-- The example field `Size uint` with the tag `size`, zero; `convert` has
no rule for its type. -/
def sizeField : Field := taggedField "Size" uintType "size" (Value.other uintType "0")

/-- The example field `Label string` with the tag `label`, holding "old". -/
def labelField : Field := taggedField "Label" stringType "label" (Value.string "old")

/-- Processing of a field fails: the field is bindable and either its
input is required and unset, or its raw value is not empty and `convert`
fails on it. -/
def Fails (rt : Runtime) (action : Action) (field : Field) : Prop :=
  field.canSet = true ∧
    match field.tag with
    | none => False
    | some tag =>
      inputNameOf tag ≠ "-" ∧
        ((action.GetInput (inputNameOf tag) = "" ∧ requiredOf tag = true) ∨
          (action.GetInput (inputNameOf tag) ≠ "" ∧
            (convert rt field.typ.str (action.GetInput (inputNameOf tag))).isOk = false))

instance (rt : Runtime) (action : Action) (field : Field) :
    Decidable (Fails rt action field) := by
  unfold Fails
  cases field.tag <;> infer_instance

/-- The list of fields as the specification words it: cut the text at every
comma and every newline, trim the white space around each piece, discard
the pieces that are then empty, keep the order. -/
def splitBySpec (value : String) : List String :=
  (((value.data.splitOnP (fun r => r == ',' || r == '\n')).map trimSpace).filter
    (fun piece => piece ≠ [])).map String.mk

/-- The four rejections of `validType`. -/
inductive Rejection
  | nilValue
  | nonPointer
  | nilPointer
  | nonStruct
  deriving DecidableEq, Repr

/-- The rejection a destination falls under, by what reflect reports about
it: a nil value, a value that is not a pointer, a nil pointer, a pointer to
something that is not a struct; `none` for a non-nil pointer to a struct. -/
def rejectionOf (v : GoAny) : Option Rejection :=
  match v with
  | none => some Rejection.nilValue
  | some i =>
    if i.typ.kind ≠ Kind.Pointer then some Rejection.nonPointer
    else if i.target = none then some Rejection.nilPointer
    else if i.elem.kind ≠ Kind.Struct then some Rejection.nonStruct
    else none

/-- The message the specification gives for a rejection, with the printed
type of the destination and the printed kind of its element type. -/
def rejectionMessage (r : Rejection) (typ kind : String) : String :=
  match r with
  | Rejection.nilValue => "nil"
  | Rejection.nonPointer => "non-pointer " ++ typ
  | Rejection.nilPointer => "nil " ++ typ
  | Rejection.nonStruct => "non-struct " ++ kind

/-- The error `e` is returned by one of the standard-library parsers of the
runtime on `value`. -/
def Runtime.parserError (rt : Runtime) (value : String) (e : GoError) : Prop :=
  rt.ParseBool value = Except.error e ∨ rt.ParseFloat value 32 = Except.error e ∨
    rt.ParseFloat value 64 = Except.error e ∨ rt.Atoi value = Except.error e ∨
    rt.ParseDuration value = Except.error e ∨ rt.ParseRFC3339 value = Except.error e

/-- An "unsupported type" error: its message is "unsupported type " followed
by a token. -/
def UnsupportedTypeError (e : GoError) : Prop :=
  ∃ token : String, e.Error = "unsupported type " ++ token

/-- The type a token names: "bool" a boolean, "float32" a 32-bit float,
"float64" a 64-bit float, "int" an integer, "string" a string,
"time.Duration" a duration and "time.Time" a timestamp of the standard
library, "[]string" a string list, "[]uint8" a byte sequence. -/
def typeNamed (token : String) : Option RType :=
  if token = "bool" then some ⟨"", "bool", Kind.Bool⟩
  else if token = "float32" then some ⟨"", "float32", Kind.Float32⟩
  else if token = "float64" then some ⟨"", "float64", Kind.Float64⟩
  else if token = "int" then some ⟨"", "int", Kind.Int⟩
  else if token = "string" then some ⟨"", "string", Kind.String⟩
  else if token = "time.Duration" then some ⟨"time", "time.Duration", Kind.Int64⟩
  else if token = "time.Time" then some ⟨"time", "time.Time", Kind.Struct⟩
  else if token = "[]string" then some ⟨"", "[]string", Kind.Slice⟩
  else if token = "[]uint8" then some ⟨"", "[]uint8", Kind.Slice⟩
  else none

/-- A struct with one field whose type is declared in another package named
`time`: it prints as `time.Time` and is not the type `time.Time` of the
standard library. -/
def foreignTime : List Field :=
  [ taggedField "Started" ⟨"example.com/clock/time", "time.Time", Kind.Struct⟩ "time"
      (Value.other ⟨"example.com/clock/time", "time.Time", Kind.Struct⟩ "zero") ]

/-- The separators of `split`: the function literal passed to
`strings.FieldsFunc`. -/
def isSeparator (r : Char) : Bool := r == '\n' || r == ','

/-- The fields of `split` as lists of runes, before they are made strings. -/
def splitRunes (value : List Char) : List (List Char) :=
  ((fieldsFunc value isSeparator).map trimSpace).filter (fun field => field ≠ [])

/-- A piece of text that is not empty, neither starts nor ends with white
space, and contains neither a comma nor a newline. -/
def Clean (piece : List Char) : Prop :=
  piece ≠ [] ∧ (∀ r, piece.head? = some r → isSpace r = false) ∧
    (∀ r, piece.getLast? = some r → isSpace r = false) ∧
    ∀ r ∈ piece, isSeparator r = false

/-- Go: `strings.Join`, on the runes of the strings. -/
def join (elems : List String) (sep : String) : String :=
  String.mk (List.intercalate sep.data (elems.map String.data))

/-- A continuation byte of UTF-8: 10xxxxxx. -/
def isContinuation (b : UInt8) : Bool := decide (0x80 ≤ b.toNat) && decide (b.toNat < 0xC0)

/-- The rune at the start of a UTF-8 byte sequence and the bytes after it;
`none` when the sequence does not start with a well-formed, shortest-form
encoding of a rune. -/
def decodeRune : List UInt8 → Option (Char × List UInt8)
  | [] => none
  | b0 :: rest =>
    if b0.toNat < 0x80 then
      some (Char.ofNat b0.toNat, rest)
    else if b0.toNat < 0xC0 then
      none
    else if b0.toNat < 0xE0 then
      match rest with
      | b1 :: rest1 =>
        let n := (b0.toNat - 0xC0) * 0x40 + (b1.toNat - 0x80)
        if isContinuation b1 ∧ 0x80 ≤ n then some (Char.ofNat n, rest1) else none
      | _ => none
    else if b0.toNat < 0xF0 then
      match rest with
      | b1 :: b2 :: rest2 =>
        let n := (b0.toNat - 0xE0) * 0x1000 + (b1.toNat - 0x80) * 0x40 + (b2.toNat - 0x80)
        if isContinuation b1 ∧ isContinuation b2 ∧ 0x800 ≤ n ∧ ¬ (0xD800 ≤ n ∧ n ≤ 0xDFFF) then
          some (Char.ofNat n, rest2)
        else none
      | _ => none
    else if b0.toNat < 0xF8 then
      match rest with
      | b1 :: b2 :: b3 :: rest3 =>
        let n := (b0.toNat - 0xF0) * 0x40000 + (b1.toNat - 0x80) * 0x1000 +
          (b2.toNat - 0x80) * 0x40 + (b3.toNat - 0x80)
        if isContinuation b1 ∧ isContinuation b2 ∧ isContinuation b3 ∧ 0x10000 ≤ n ∧
            n < 0x110000 then
          some (Char.ofNat n, rest3)
        else none
      | _ => none
    else none

/-- The runes of a UTF-8 byte sequence, read one after the other; `fuel`
bounds the number of runes. -/
def utf8DecodeLoop : Nat → List UInt8 → Option (List Char)
  | _, [] => some []
  | 0, _ :: _ => none
  | fuel + 1, b :: bs =>
    match decodeRune (b :: bs) with
    | none => none
    | some (r, rest) => (utf8DecodeLoop fuel rest).map (fun runes => r :: runes)

/-- The text of a byte sequence, which the conversion `string(b)` gives back:
the runes the bytes encode in UTF-8, `none` when they are not well-formed
UTF-8.  A sequence of n bytes holds at most n runes. -/
def utf8Decode (b : List UInt8) : Option (List Char) := utf8DecodeLoop b.length b

/-! ## Lemmas on the loop -/

theorem fieldLoop_nil (rt : Runtime) (action : Action) (index : Nat) :
    fieldLoop rt action index [] = ⟨[], Outcome.returned none, []⟩ := by
  simp [fieldLoop]

theorem fieldLoop_cons_next (rt : Runtime) (action : Action) (index : Nat)
    (field field1 : Field) (rest : List Field) (calls : List Call)
    (h : fieldStep rt action field = (Step.next field1, calls)) :
    fieldLoop rt action index (field :: rest) =
      ⟨field1 :: (fieldLoop rt action (index + 1) rest).fields,
        (fieldLoop rt action (index + 1) rest).outcome,
        calls.map (fun c => (index, c)) ++ (fieldLoop rt action (index + 1) rest).trace⟩ := by
  simp [fieldLoop, h]

theorem fieldLoop_cons_stop (rt : Runtime) (action : Action) (index : Nat)
    (field : Field) (rest : List Field) (outcome : Outcome) (calls : List Call)
    (h : fieldStep rt action field = (Step.stop outcome, calls)) :
    fieldLoop rt action index (field :: rest) =
      ⟨field :: rest, outcome, calls.map (fun c => (index, c))⟩ := by
  simp [fieldLoop, h]

theorem fieldStep_cannot_set (rt : Runtime) (action : Action) (field : Field)
    (hc : field.canSet = false) : fieldStep rt action field = (Step.next field, []) := by
  simp [fieldStep, hc]

theorem fieldStep_no_tag (rt : Runtime) (action : Action) (field : Field)
    (ht : field.tag = none) : fieldStep rt action field = (Step.next field, []) := by
  by_cases hc : field.canSet <;> simp [fieldStep, hc, ht]

theorem fieldStep_ignored (rt : Runtime) (action : Action) (field : Field) (tag : String)
    (ht : field.tag = some tag) (hn : inputNameOf tag = "-") :
    fieldStep rt action field = (Step.next field, []) := by
  unfold inputNameOf at hn
  by_cases hc : field.canSet <;> simp [fieldStep, hc, ht, hn]

theorem fieldStep_missing_required (rt : Runtime) (action : Action) (field : Field)
    (tag : String) (hc : field.canSet = true) (ht : field.tag = some tag)
    (hn : inputNameOf tag ≠ "-") (hv : action.GetInput (inputNameOf tag) = "")
    (hr : requiredOf tag = true) :
    fieldStep rt action field =
      (Step.stop (Outcome.returned (some (GoError.errorString
          ("no value for required input " ++ inputNameOf tag)))),
        [Call.GetInput (inputNameOf tag)]) := by
  unfold inputNameOf requiredOf at *
  simp [fieldStep, hc, ht, hn, hv, hr]

theorem fieldStep_missing_optional (rt : Runtime) (action : Action) (field : Field)
    (tag : String) (hc : field.canSet = true) (ht : field.tag = some tag)
    (hn : inputNameOf tag ≠ "-") (hv : action.GetInput (inputNameOf tag) = "")
    (hr : requiredOf tag = false) :
    fieldStep rt action field = (Step.next field, [Call.GetInput (inputNameOf tag)]) := by
  unfold inputNameOf requiredOf at *
  simp [fieldStep, hc, ht, hn, hv, hr]

theorem fieldStep_convert_error (rt : Runtime) (action : Action) (field : Field)
    (tag : String) (err : GoError) (hc : field.canSet = true) (ht : field.tag = some tag)
    (hn : inputNameOf tag ≠ "-") (hv : action.GetInput (inputNameOf tag) ≠ "")
    (he : convert rt field.typ.str (action.GetInput (inputNameOf tag)) = Except.error err) :
    fieldStep rt action field =
      (Step.stop (Outcome.returned (some (GoError.wrapError
          ("field " ++ field.name ++ ": " ++ err.Error) err))),
        [Call.GetInput (inputNameOf tag),
          Call.convert field.typ.str (action.GetInput (inputNameOf tag))]) := by
  unfold inputNameOf at *
  simp [fieldStep, hc, ht, hn, hv, he]

theorem fieldStep_set (rt : Runtime) (action : Action) (field : Field)
    (tag : String) (value : Value) (hc : field.canSet = true) (ht : field.tag = some tag)
    (hn : inputNameOf tag ≠ "-") (hv : action.GetInput (inputNameOf tag) ≠ "")
    (he : convert rt field.typ.str (action.GetInput (inputNameOf tag)) = Except.ok value)
    (ha : assignable rt value.typeOf field.typ = true) :
    fieldStep rt action field =
      (Step.next { field with value := value },
        [Call.GetInput (inputNameOf tag),
          Call.convert field.typ.str (action.GetInput (inputNameOf tag)), Call.Set value]) := by
  unfold inputNameOf at *
  simp [fieldStep, hc, ht, hn, hv, he, ha]

theorem fieldStep_set_panics (rt : Runtime) (action : Action) (field : Field)
    (tag : String) (value : Value) (hc : field.canSet = true) (ht : field.tag = some tag)
    (hn : inputNameOf tag ≠ "-") (hv : action.GetInput (inputNameOf tag) ≠ "")
    (he : convert rt field.typ.str (action.GetInput (inputNameOf tag)) = Except.ok value)
    (ha : assignable rt value.typeOf field.typ = false) :
    fieldStep rt action field =
      (Step.stop (Outcome.panicked ("reflect.Set: value of type " ++ value.typeOf.str
          ++ " is not assignable to type " ++ field.typ.str)),
        [Call.GetInput (inputNameOf tag),
          Call.convert field.typ.str (action.GetInput (inputNameOf tag)), Call.Set value]) := by
  unfold inputNameOf at *
  simp [fieldStep, hc, ht, hn, hv, he, ha]

theorem stepCase (rt : Runtime) (action : Action) (field : Field) :
    StepCase rt action field := by
  cases hc : field.canSet
  · exact StepCase.cannotSet hc
  cases ht : field.tag with
  | none => exact StepCase.noTag hc ht
  | some tag =>
    by_cases hn : inputNameOf tag = "-"
    · exact StepCase.ignored tag hc ht hn
    by_cases hv : action.GetInput (inputNameOf tag) = ""
    · cases hr : requiredOf tag
      · exact StepCase.missingOptional tag hc ht hn hv hr
      · exact StepCase.missingRequired tag hc ht hn hv hr
    cases he : convert rt field.typ.str (action.GetInput (inputNameOf tag)) with
    | error err => exact StepCase.convertError tag err hc ht hn hv he
    | ok value =>
      cases ha : assignable rt value.typeOf field.typ
      · exact StepCase.setPanics tag value hc ht hn hv he ha
      · exact StepCase.set tag value hc ht hn hv he ha

/-- The loop body never leaves the function with a nil error. -/
theorem fieldStep_stop_ne (rt : Runtime) (action : Action) (field : Field)
    (outcome : Outcome) (calls : List Call)
    (h : fieldStep rt action field = (Step.stop outcome, calls)) :
    outcome ≠ Outcome.returned none := by
  rcases stepCase rt action field with hc | ⟨hc, ht⟩ | ⟨tag, hc, ht, hn⟩ |
    ⟨tag, hc, ht, hn, hv, hr⟩ | ⟨tag, hc, ht, hn, hv, hr⟩ | ⟨tag, err, hc, ht, hn, hv, he⟩ |
    ⟨tag, value, hc, ht, hn, hv, he, ha⟩ | ⟨tag, value, hc, ht, hn, hv, he, ha⟩
  · rw [fieldStep_cannot_set rt action field hc] at h; simp at h
  · rw [fieldStep_no_tag rt action field ht] at h; simp at h
  · rw [fieldStep_ignored rt action field tag ht hn] at h; simp at h
  · rw [fieldStep_missing_required rt action field tag hc ht hn hv hr] at h
    simp at h; rw [← h.1]; simp
  · rw [fieldStep_missing_optional rt action field tag hc ht hn hv hr] at h; simp at h
  · rw [fieldStep_convert_error rt action field tag err hc ht hn hv he] at h
    simp at h; rw [← h.1]; simp
  · rw [fieldStep_set rt action field tag value hc ht hn hv he ha] at h; simp at h
  · rw [fieldStep_set_panics rt action field tag value hc ht hn hv he ha] at h
    simp at h; rw [← h.1]; simp

/-- A step ends in exactly one of the two ways. -/
theorem fieldStep_next_or_stop (rt : Runtime) (action : Action) (field : Field) :
    (∃ field1 calls, fieldStep rt action field = (Step.next field1, calls)) ∨
    (∃ outcome calls, fieldStep rt action field = (Step.stop outcome, calls)) := by
  rcases h : fieldStep rt action field with ⟨step, calls⟩
  cases step with
  | next field1 => exact Or.inl ⟨field1, calls, rfl⟩
  | stop outcome => exact Or.inr ⟨outcome, calls, rfl⟩

/-- The loop keeps the number of fields. -/
theorem fieldLoop_length (rt : Runtime) (action : Action) (fields : List Field) :
    ∀ index, (fieldLoop rt action index fields).fields.length = fields.length := by
  induction fields with
  | nil => intro index; simp [fieldLoop]
  | cons field rest ih =>
    intro index
    rcases fieldStep_next_or_stop rt action field with ⟨f1, calls, h⟩ | ⟨o, calls, h⟩
    · rw [fieldLoop_cons_next rt action index field f1 rest calls h]; simp [ih]
    · rw [fieldLoop_cons_stop rt action index field rest o calls h]

/-- The fields and the outcome of the loop do not depend on the index it
starts from. -/
theorem fieldLoop_index (rt : Runtime) (action : Action) (fields : List Field) :
    ∀ i j, (fieldLoop rt action i fields).fields = (fieldLoop rt action j fields).fields ∧
      (fieldLoop rt action i fields).outcome = (fieldLoop rt action j fields).outcome := by
  induction fields with
  | nil => intro i j; simp [fieldLoop]
  | cons field rest ih =>
    intro i j
    rcases fieldStep_next_or_stop rt action field with ⟨f1, calls, h⟩ | ⟨o, calls, h⟩
    · rw [fieldLoop_cons_next rt action i field f1 rest calls h,
        fieldLoop_cons_next rt action j field f1 rest calls h]
      simp [(ih (i + 1) (j + 1)).1, (ih (i + 1) (j + 1)).2]
    · rw [fieldLoop_cons_stop rt action i field rest o calls h,
        fieldLoop_cons_stop rt action j field rest o calls h]
      simp

/-- Every call of the loop is made for a field the loop walks over. -/
theorem fieldLoop_trace_index (rt : Runtime) (action : Action) (fields : List Field) :
    ∀ index, ∀ e ∈ (fieldLoop rt action index fields).trace,
      index ≤ e.1 ∧ e.1 < index + fields.length := by
  induction fields with
  | nil => intro index e he; simp [fieldLoop] at he
  | cons field rest ih =>
    intro index e he
    rcases fieldStep_next_or_stop rt action field with ⟨f1, calls, h⟩ | ⟨o, calls, h⟩
    · rw [fieldLoop_cons_next rt action index field f1 rest calls h] at he
      simp only [List.mem_append, List.mem_map] at he
      rcases he with ⟨c, _, rfl⟩ | he
      · simp
      · have := ih (index + 1) e he
        simp only [List.length_cons]
        omega
    · rw [fieldLoop_cons_stop rt action index field rest o calls h] at he
      simp only [List.mem_map] at he
      rcases he with ⟨c, _, rfl⟩
      simp

/-- The loop over a list of fields that is split in two: when the first part
is walked through, the loop goes on with the second part; otherwise it ends
where the first part ends it. -/
theorem fieldLoop_append (rt : Runtime) (action : Action) (pre rest : List Field) :
    ∀ index, fieldLoop rt action index (pre ++ rest) =
      if (fieldLoop rt action index pre).outcome = Outcome.returned none then
        ⟨(fieldLoop rt action index pre).fields ++
            (fieldLoop rt action (index + pre.length) rest).fields,
          (fieldLoop rt action (index + pre.length) rest).outcome,
          (fieldLoop rt action index pre).trace ++
            (fieldLoop rt action (index + pre.length) rest).trace⟩
      else
        ⟨(fieldLoop rt action index pre).fields ++ rest,
          (fieldLoop rt action index pre).outcome,
          (fieldLoop rt action index pre).trace⟩ := by
  induction pre with
  | nil => intro index; simp [fieldLoop]
  | cons field pre ih =>
    intro index
    rcases fieldStep_next_or_stop rt action field with ⟨f1, calls, h⟩ | ⟨o, calls, h⟩
    · rw [List.cons_append, fieldLoop_cons_next rt action index field f1 (pre ++ rest) calls h,
        fieldLoop_cons_next rt action index field f1 pre calls h, ih (index + 1)]
      have hidx : index + 1 + pre.length = index + (field :: pre).length := by
        simp only [List.length_cons]; omega
      rw [hidx]
      by_cases hp : (fieldLoop rt action (index + 1) pre).outcome = Outcome.returned none
      · simp [hp]
      · simp [hp]
    · have ho := fieldStep_stop_ne rt action field o calls h
      rw [List.cons_append, fieldLoop_cons_stop rt action index field (pre ++ rest) o calls h,
        fieldLoop_cons_stop rt action index field pre o calls h]
      simp [ho]

/-! ## Lemmas on Unmarshal -/

/-- The validation does not read the fields of the pointee. -/
theorem validType_fields (typ elem : RType) (fields fields1 : List Field) :
    validType (some ⟨typ, elem, some fields⟩) = validType (some ⟨typ, elem, some fields1⟩) := by
  simp [validType]

/-- On a destination that passes the validation, `Unmarshal` is the loop
over its fields from index 0. -/
theorem Unmarshal_valid (rt : Runtime) (action : Action) (typ elem : RType)
    (fields : List Field) (h : validType (some ⟨typ, elem, some fields⟩) = none) :
    Unmarshal rt action (some ⟨typ, elem, some fields⟩) =
      ⟨some ⟨typ, elem, some (fieldLoop rt action 0 fields).fields⟩,
        (fieldLoop rt action 0 fields).outcome, (fieldLoop rt action 0 fields).trace⟩ := by
  simp [Unmarshal, h]

/-- On a destination that fails the validation, `Unmarshal` returns the
error of the validation and does nothing else. -/
theorem Unmarshal_invalid (rt : Runtime) (action : Action) (v : GoAny) (err : GoError)
    (h : validType v = some err) :
    Unmarshal rt action v = ⟨v, Outcome.returned (some err), []⟩ := by
  simp [Unmarshal, h]

/-- The loop over fields that are all convertible and assignable sets every
field and returns nil. -/
theorem fieldLoop_all_set (rt : Runtime) (action : Action) (fields : List Field)
    (values : List Value)
    (h : List.Forall₂ (fun field value => Convertible rt action field value ∧
      assignable rt value.typeOf field.typ = true) fields values) :
    ∀ index, (fieldLoop rt action index fields).fields =
        List.zipWith (fun field value => { field with value := value }) fields values ∧
      (fieldLoop rt action index fields).outcome = Outcome.returned none := by
  induction h with
  | nil => intro index; simp [fieldLoop]
  | @cons field value fields values hhead _ ih =>
    intro index
    obtain ⟨⟨hc, hconv⟩, ha⟩ := hhead
    cases ht : field.tag with
    | none => simp [ht] at hconv
    | some tag =>
      simp only [ht] at hconv
      obtain ⟨hn, hv, he⟩ := hconv
      rw [fieldLoop_cons_next rt action index field _ fields _
        (fieldStep_set rt action field tag value hc ht hn hv he ha)]
      simp [(ih (index + 1)).1, (ih (index + 1)).2]

/-- The loop that walks through `pre` and stops at the next field. -/
theorem fieldLoop_stop_at (rt : Runtime) (action : Action) (pre post : List Field)
    (field : Field) (outcome : Outcome) (calls : List Call)
    (hpre : (fieldLoop rt action 0 pre).outcome = Outcome.returned none)
    (hstep : fieldStep rt action field = (Step.stop outcome, calls)) :
    fieldLoop rt action 0 (pre ++ field :: post) =
      ⟨(fieldLoop rt action 0 pre).fields ++ field :: post, outcome,
        (fieldLoop rt action 0 pre).trace ++ calls.map (fun c => (pre.length, c))⟩ := by
  rw [fieldLoop_append rt action pre (field :: post) 0, if_pos hpre,
    fieldLoop_cons_stop rt action (0 + pre.length) field post outcome calls hstep]
  simp

/-- The loop that walks through `pre` and goes on after the next field. -/
theorem fieldLoop_next_at (rt : Runtime) (action : Action) (pre post : List Field)
    (field field1 : Field) (calls : List Call)
    (hpre : (fieldLoop rt action 0 pre).outcome = Outcome.returned none)
    (hstep : fieldStep rt action field = (Step.next field1, calls)) :
    fieldLoop rt action 0 (pre ++ field :: post) =
      ⟨(fieldLoop rt action 0 pre).fields ++
          field1 :: (fieldLoop rt action (pre.length + 1) post).fields,
        (fieldLoop rt action (pre.length + 1) post).outcome,
        (fieldLoop rt action 0 pre).trace ++ (calls.map (fun c => (pre.length, c)) ++
          (fieldLoop rt action (pre.length + 1) post).trace)⟩ := by
  rw [fieldLoop_append rt action pre (field :: post) 0, if_pos hpre,
    fieldLoop_cons_next rt action (0 + pre.length) field field1 post calls hstep]
  simp

/-- The loop that stops inside `pre` never sees the fields after it. -/
theorem fieldLoop_stop_before (rt : Runtime) (action : Action) (pre post : List Field)
    (hpre : (fieldLoop rt action 0 pre).outcome ≠ Outcome.returned none) :
    fieldLoop rt action 0 (pre ++ post) =
      ⟨(fieldLoop rt action 0 pre).fields ++ post, (fieldLoop rt action 0 pre).outcome,
        (fieldLoop rt action 0 pre).trace⟩ := by
  rw [fieldLoop_append rt action pre post 0, if_neg hpre]

/-- When the loop walks through all the fields, each field is left as its
own iteration leaves it. -/
theorem fieldLoop_done (rt : Runtime) (action : Action) (fields : List Field) :
    ∀ index, (fieldLoop rt action index fields).outcome = Outcome.returned none →
      List.Forall₂ (fun field field1 => (fieldStep rt action field).1 = Step.next field1)
        fields (fieldLoop rt action index fields).fields := by
  induction fields with
  | nil => intro index _; simp [fieldLoop]
  | cons field rest ih =>
    intro index hdone
    rcases fieldStep_next_or_stop rt action field with ⟨f1, calls, h⟩ | ⟨o, calls, h⟩
    · rw [fieldLoop_cons_next rt action index field f1 rest calls h] at hdone ⊢
      exact List.Forall₂.cons (by simp [h]) (ih (index + 1) hdone)
    · rw [fieldLoop_cons_stop rt action index field rest o calls h] at hdone
      exact absurd hdone (fieldStep_stop_ne rt action field o calls h)

/-- An iteration that goes on after a convertible field has set the field
to the converted value. -/
theorem fieldStep_next_of_convertible (rt : Runtime) (action : Action)
    (field field1 : Field) (value : Value) (hconv : Convertible rt action field value)
    (hstep : (fieldStep rt action field).1 = Step.next field1) :
    field1 = { field with value := value } := by
  obtain ⟨hc, hrest⟩ := hconv
  cases ht : field.tag with
  | none => simp [ht] at hrest
  | some tag =>
    simp only [ht] at hrest
    obtain ⟨hn, hv, he⟩ := hrest
    cases ha : assignable rt value.typeOf field.typ
    · rw [fieldStep_set_panics rt action field tag value hc ht hn hv he ha] at hstep
      simp at hstep
    · rw [fieldStep_set rt action field tag value hc ht hn hv he ha] at hstep
      simp at hstep
      rw [← hstep]
      simp [ht]

/-- When the loop walks through all the fields, every convertible field
holds its converted value afterwards. -/
theorem fieldLoop_done_assigned (rt : Runtime) (action : Action) (fields : List Field)
    (index : Nat) (hdone : (fieldLoop rt action index fields).outcome = Outcome.returned none) :
    List.Forall₂ (fun field field1 => ∀ value, Convertible rt action field value →
        field1 = { field with value := value })
      fields (fieldLoop rt action index fields).fields := by
  refine List.Forall₂.imp ?_ (fieldLoop_done rt action fields index hdone)
  intro field field1 hstep value hconv
  exact fieldStep_next_of_convertible rt action field field1 value hconv hstep

/-- The tag `name,required` has the input name `name` and is required. -/
theorem cutSuffix_required (name : String) :
    cutSuffix (name ++ ",required") ",required" = (name, true) := by
  have hs : (",required" : String).data.isSuffixOf (name ++ ",required").data = true := by
    rw [List.isSuffixOf_iff_suffix, String.data_append]
    exact List.suffix_append _ _
  unfold cutSuffix
  rw [if_pos hs]
  simp [String.data_append]

theorem inputNameOf_required (name : String) : inputNameOf (name ++ ",required") = name := by
  simp [inputNameOf, cutSuffix_required]

theorem requiredOf_required (name : String) : requiredOf (name ++ ",required") = true := by
  simp [requiredOf, cutSuffix_required]

/-- The default arm of `convert`. -/
theorem convert_unsupported (rt : Runtime) (kind value : String)
    (hk : kind ∉ supportedTypes) :
    convert rt kind value = Except.error (GoError.errorString ("unsupported type " ++ kind)) := by
  simp only [supportedTypes, List.mem_cons, List.mem_singleton, not_or, List.not_mem_nil,
    or_false] at hk
  obtain ⟨h1, h2, h3, h4, h5, h6, h7, h8, h9⟩ := hk
  simp [convert, h1, h2, h3, h4, h5, h6, h7, h8, h9]

/-- The result of `Unmarshal` on a valid destination whose walk passes `pre` and stops at
the next field: the fields of `pre` are left as the walk over `pre` alone
leaves them, the field and those after it are untouched. -/
theorem Unmarshal_stop_at (rt : Runtime) (action : Action) (typ elem : RType)
    (pre post : List Field) (field : Field) (outcome : Outcome) (calls : List Call)
    (hvalid : validType (some ⟨typ, elem, some (pre ++ field :: post)⟩) = none)
    (hpre : (Unmarshal rt action (some ⟨typ, elem, some pre⟩)).outcome = Outcome.returned none)
    (hstep : fieldStep rt action field = (Step.stop outcome, calls)) :
    Unmarshal rt action (some ⟨typ, elem, some (pre ++ field :: post)⟩) =
      ⟨some ⟨typ, elem,
          some (fieldsOf (Unmarshal rt action (some ⟨typ, elem, some pre⟩)).v ++ field :: post)⟩,
        outcome,
        (Unmarshal rt action (some ⟨typ, elem, some pre⟩)).trace ++
          calls.map (fun c => (pre.length, c))⟩ := by
  have hvalid1 : validType (some ⟨typ, elem, some pre⟩) = none := by
    rw [validType_fields typ elem pre (pre ++ field :: post)]; exact hvalid
  rw [Unmarshal_valid rt action typ elem pre hvalid1] at hpre ⊢
  rw [Unmarshal_valid rt action typ elem _ hvalid,
    fieldLoop_stop_at rt action pre post field outcome calls hpre hstep]
  simp [fieldsOf]

/-- The calls `Unmarshal` makes on the struct of the fields `pre` are made for
indices below the length of `pre`. -/
theorem Unmarshal_trace_index (rt : Runtime) (action : Action) (v : GoAny) :
    ∀ e ∈ (Unmarshal rt action v).trace, e.1 < (fieldsOf v).length := by
  intro e he
  cases hv : validType v with
  | some err => rw [Unmarshal_invalid rt action v err hv] at he; simp at he
  | none =>
    cases v with
    | none => simp [validType] at hv
    | some i =>
      obtain ⟨typ, elem, target⟩ := i
      cases target with
      | none => simp [Unmarshal, hv] at he
      | some fields =>
        rw [Unmarshal_valid rt action typ elem fields hv] at he
        have := fieldLoop_trace_index rt action fields 0 e he
        simp only [fieldsOf, Option.getD_some]
        omega

/-- The call `Unmarshal` keeps the number of fields. -/
theorem Unmarshal_length (rt : Runtime) (action : Action) (v : GoAny) :
    (fieldsOf (Unmarshal rt action v).v).length = (fieldsOf v).length := by
  cases hv : validType v with
  | some err => rw [Unmarshal_invalid rt action v err hv]
  | none =>
    cases v with
    | none => simp [validType] at hv
    | some i =>
      obtain ⟨typ, elem, target⟩ := i
      cases target with
      | none => simp [Unmarshal, hv]
      | some fields =>
        rw [Unmarshal_valid rt action typ elem fields hv]
        simp [fieldsOf, fieldLoop_length]

/-! ## C1: binding every field -/

/-- Where the code binds every field.  For a destination that is a non-nil
pointer to a struct and a lookup such that every field is writable, carries
an input tag whose name is not "-", has a non-empty raw value, and `convert`
succeeds on its declared type and raw value, `Unmarshal` returns no error
and afterwards every field holds the value `convert` returned for it,
provided `Set` accepts each value (the value is assignable to the field). -/
theorem Unmarshal_sets_every_field (rt : Runtime) (action : Action) (typ elem : RType)
    (fields : List Field) (values : List Value)
    (hvalid : validType (some ⟨typ, elem, some fields⟩) = none)
    (hconv : List.Forall₂ (Convertible rt action) fields values)
    (hassign : List.Forall₂
      (fun field value => assignable rt value.typeOf field.typ = true) fields values) :
    (Unmarshal rt action (some ⟨typ, elem, some fields⟩)).outcome = Outcome.returned none ∧
    fieldsOf (Unmarshal rt action (some ⟨typ, elem, some fields⟩)).v =
      List.zipWith (fun field value => { field with value := value }) fields values := by
  have hboth : List.Forall₂ (fun field value => Convertible rt action field value ∧
      assignable rt value.typeOf field.typ = true) fields values := by
    clear hvalid
    induction hconv with
    | nil => exact List.Forall₂.nil
    | cons hhead _ ih =>
      cases hassign with
      | cons ahead atail => exact List.Forall₂.cons ⟨hhead, ahead⟩ (ih atail)
  have hloop := fieldLoop_all_set rt action fields values hboth 0
  rw [Unmarshal_valid rt action typ elem fields hvalid]
  exact ⟨hloop.2, by simp [fieldsOf, hloop.1]⟩

/-- The run of `TestUnmarshal`.  With bool="true", float="3.14",
double="3.14159", int="9001", string="foo", duration="1m9s",
time="2006-01-02T15:04:05Z", list="foo,bar,baz" and raw=\x7b"foo": "bar"\x7d the
call returns nil and the fields hold true, 3.14, 3.14159, 9001, "foo", 69 s,
2006-01-02 15:04:05 UTC, ["foo","bar","baz"] and the bytes of the raw
text. -/
theorem Unmarshal_sets_every_field_witness :
    validType (pointerTo testTarget) = none ∧
    List.Forall₂ (Convertible testRuntime testAction) testTarget testValues ∧
    List.Forall₂ (fun field value => assignable testRuntime value.typeOf field.typ = true)
      testTarget testValues ∧
    ((Unmarshal testRuntime testAction (pointerTo testTarget)).outcome = Outcome.returned none ∧
      fieldsOf (Unmarshal testRuntime testAction (pointerTo testTarget)).v =
        List.zipWith (fun field value => { field with value := value })
          testTarget testValues) ∧
    (fieldsOf (Unmarshal testRuntime testAction (pointerTo testTarget)).v).map
      (fun field => field.value) = testValues :=
  ⟨by decide, by decide, by decide,
    Unmarshal_sets_every_field testRuntime testAction _ _ testTarget testValues
      (by decide) (by decide) (by decide),
    by decide⟩

/-- C1, code bug.  The only field of the struct is writable, tagged
`duration`, has the raw value "1m9s", and `convert` succeeds on
("time.Duration", "1m9s"), so `Unmarshal` should return nil with the field
set; instead it does not return: `Set` panics, because the value is a
`time.Duration` of the standard library and the field has another type of
the same printed name, and the field is left as it was.  The sibling path
shows what the code does for a type it cannot convert to: the same field
with a type that prints as `clock.Duration` makes `Unmarshal` return the
error "field Timeout: unsupported type clock.Duration". -/
theorem Unmarshal_foreign_duration_panics :
    (Unmarshal testRuntime testAction (pointerTo clockDuration)).outcome =
      Outcome.returned (some (GoError.wrapError
        "field Timeout: unsupported type clock.Duration"
        (GoError.errorString "unsupported type clock.Duration"))) ∧
    validType (pointerTo foreignDuration) = none ∧
    List.Forall₂ (Convertible testRuntime testAction) foreignDuration
      [Value.duration 69000000000] ∧
    (Unmarshal testRuntime testAction (pointerTo foreignDuration)).outcome =
      Outcome.panicked
        "reflect.Set: value of type time.Duration is not assignable to type time.Duration" ∧
    (Unmarshal testRuntime testAction (pointerTo foreignDuration)).outcome ≠
      Outcome.returned none ∧
    fieldsOf (Unmarshal testRuntime testAction (pointerTo foreignDuration)).v =
      foreignDuration := by
  decide

/-! ## C2: validType -/

/-- C2.  `validType` returns an error for a nil argument, for an argument
that is not a pointer, for a nil pointer and for a pointer to a type that
is not a struct; it returns no error exactly when the argument is a
non-nil pointer to a struct. -/
theorem validType_spec (v : GoAny) :
    (v = none → ∃ err, validType v = some err) ∧
    (∀ i, v = some i → i.typ.kind ≠ Kind.Pointer → ∃ err, validType v = some err) ∧
    (∀ i, v = some i → i.typ.kind = Kind.Pointer → i.target = none →
      ∃ err, validType v = some err) ∧
    (∀ i, v = some i → i.typ.kind = Kind.Pointer → i.elem.kind ≠ Kind.Struct →
      ∃ err, validType v = some err) ∧
    (validType v = none ↔
      ∃ i fields, v = some i ∧ i.typ.kind = Kind.Pointer ∧ i.target = some fields ∧
        i.elem.kind = Kind.Struct) := by
  refine ⟨?_, ?_, ?_, ?_, ?_⟩
  · rintro rfl; simp [validType]
  · rintro i rfl hk; simp [validType, hk]
  · rintro i rfl hk ht; simp [validType, hk, ht]
  · rintro i rfl hk he
    cases ht : i.target <;> simp [validType, hk, ht, he]
  · cases v with
    | none => simp [validType]
    | some i =>
      by_cases hk : i.typ.kind = Kind.Pointer
      · cases ht : i.target with
        | none => simp [validType, hk, ht]
        | some fields =>
          by_cases he : i.elem.kind = Kind.Struct <;> simp [validType, hk, ht, he]
      · simp [validType, hk]

/-! ## C3: a required input without value -/

/-- C3, amended.  On a valid destination, when no field before it stops the
walk, a writable field with the tag `name,required`, where `name` is not
"-", for which the lookup returns the empty string makes `Unmarshal` return
the error "no value for required input name"; the field and the fields after
it are as before the call, and `Set` is not called for the field. -/
theorem Unmarshal_missing_required (rt : Runtime) (action : Action) (typ elem : RType)
    (pre post : List Field) (field : Field) (name : String)
    (hvalid : validType (some ⟨typ, elem, some (pre ++ field :: post)⟩) = none)
    (hpre : (Unmarshal rt action (some ⟨typ, elem, some pre⟩)).outcome = Outcome.returned none)
    (hc : field.canSet = true) (ht : field.tag = some (name ++ ",required"))
    (hn : name ≠ "-") (hv : action.GetInput name = "") :
    (Unmarshal rt action (some ⟨typ, elem, some (pre ++ field :: post)⟩)).outcome =
      Outcome.returned (some (GoError.errorString ("no value for required input " ++ name))) ∧
    (fieldsOf (Unmarshal rt action (some ⟨typ, elem, some (pre ++ field :: post)⟩)).v).drop
      pre.length = field :: post ∧
    ∀ value, (pre.length, Call.Set value) ∉
      (Unmarshal rt action (some ⟨typ, elem, some (pre ++ field :: post)⟩)).trace := by
  have hstep := fieldStep_missing_required rt action field (name ++ ",required") hc ht
    (by rw [inputNameOf_required]; exact hn) (by rw [inputNameOf_required]; exact hv)
    (requiredOf_required name)
  rw [inputNameOf_required] at hstep
  rw [Unmarshal_stop_at rt action typ elem pre post field _ _ hvalid hpre hstep]
  refine ⟨rfl, ?_, ?_⟩
  · have hlen := Unmarshal_length rt action (some ⟨typ, elem, some pre⟩)
    simp only [fieldsOf, Option.getD_some] at hlen ⊢
    rw [← hlen, List.drop_left]
  · intro value hmem
    simp only [List.mem_append, List.map_cons, List.map_nil, List.mem_singleton,
      Prod.mk.injEq] at hmem
    rcases hmem with hmem | ⟨_, hmem⟩
    · have := Unmarshal_trace_index rt action (some ⟨typ, elem, some pre⟩) _ hmem
      simp [fieldsOf] at this
    · cases hmem

/-- C3, witness: the struct with the fields `Name` (input "name", set to
"x") and `Token` (tag "token,required", unset). -/
theorem Unmarshal_missing_required_witness :
    validType (pointerTo ([taggedField "Name" stringType "name" (Value.string "")] ++
      taggedField "Token" stringType ("token" ++ ",required") (Value.string "") :: [])) = none ∧
    (Unmarshal testRuntime (actionOf [("name", "x")])
      (pointerTo [taggedField "Name" stringType "name" (Value.string "")])).outcome =
        Outcome.returned none ∧
    (Unmarshal testRuntime (actionOf [("name", "x")])
      (pointerTo ([taggedField "Name" stringType "name" (Value.string "")] ++
        taggedField "Token" stringType ("token" ++ ",required") (Value.string "") :: []))).outcome =
      Outcome.returned (some (GoError.errorString ("no value for required input " ++ "token"))) :=
  ⟨by decide, by decide,
    (Unmarshal_missing_required testRuntime (actionOf [("name", "x")]) _ _
      [taggedField "Name" stringType "name" (Value.string "")] []
      (taggedField "Token" stringType ("token" ++ ",required") (Value.string "")) "token"
      (by decide) (by decide) rfl rfl (by decide) (by decide)).1⟩

/-- C3, counterexample.  Three structs with a field tagged as required whose
input is unset, on which `Unmarshal` does not return the error "no value for
required input": the field is not writable (the call returns nil); the tag
is "-,required" (the call returns nil); a field before it fails (the call
returns the error of that field). -/
theorem Unmarshal_required_not_reported :
    ((actionOf []).GetInput "token" = "" ∧
      (Unmarshal testRuntime (actionOf [])
        (pointerTo [⟨"token", stringType, some "token,required", false, Value.string ""⟩])).outcome =
          Outcome.returned none) ∧
    ((actionOf []).GetInput "-" = "" ∧
      (Unmarshal testRuntime (actionOf [])
        (pointerTo [taggedField "Token" stringType "-,required" (Value.string "")])).outcome =
          Outcome.returned none) ∧
    ((actionOf [("count", "zz")]).GetInput "token" = "" ∧
      (Unmarshal testRuntime (actionOf [("count", "zz")])
        (pointerTo [taggedField "Count" intType "count" (Value.int 0),
          taggedField "Token" stringType "token,required" (Value.string "")])).outcome =
        Outcome.returned (some (GoError.wrapError
          "field Count: strconv.Atoi: parsing \"zz\": invalid syntax"
          (numError "Atoi" "zz" "invalid syntax")))) := by
  decide

/-! ## Lemmas on a walk that stops -/

/-- The state of the fields after a walk that passes `pre` and stops at the
next field: the part before the field holds the converted value of every
convertible field, the field and those after it are as before the call. -/
theorem Unmarshal_stop_at_fields (rt : Runtime) (action : Action) (typ elem : RType)
    (pre post : List Field) (field : Field) (outcome : Outcome) (calls : List Call)
    (hvalid : validType (some ⟨typ, elem, some (pre ++ field :: post)⟩) = none)
    (hpre : (Unmarshal rt action (some ⟨typ, elem, some pre⟩)).outcome = Outcome.returned none)
    (hstep : fieldStep rt action field = (Step.stop outcome, calls)) :
    List.Forall₂ (fun before after => ∀ value, Convertible rt action before value →
        after = { before with value := value })
      pre ((fieldsOf (Unmarshal rt action
        (some ⟨typ, elem, some (pre ++ field :: post)⟩)).v).take pre.length) ∧
    (fieldsOf (Unmarshal rt action (some ⟨typ, elem, some (pre ++ field :: post)⟩)).v).drop
      pre.length = field :: post := by
  have hvalid1 : validType (some ⟨typ, elem, some pre⟩) = none := by
    rw [validType_fields typ elem pre (pre ++ field :: post)]; exact hvalid
  rw [Unmarshal_stop_at rt action typ elem pre post field outcome calls hvalid hpre hstep]
  rw [Unmarshal_valid rt action typ elem pre hvalid1] at hpre ⊢
  have hlen := fieldLoop_length rt action pre 0
  simp only [fieldsOf, Option.getD_some]
  constructor
  · rw [List.take_left' hlen]
    exact fieldLoop_done_assigned rt action pre 0 hpre
  · rw [List.drop_left' hlen]

/-! ## C4: a field of an unsupported type -/

/-- C4, amended.  On a valid destination, when no field before it stops the
walk, a bindable field (writable, tagged, input name not "-") whose
declared type is not one of the nine supported tokens and whose raw value
is not empty makes `Unmarshal` return the error "field Name: unsupported
type T", which wraps "unsupported type T"; every convertible field before
it holds its converted value, the field and those after it are as
before. -/
theorem Unmarshal_unsupported_type (rt : Runtime) (action : Action) (typ elem : RType)
    (pre post : List Field) (field : Field) (tag : String)
    (hvalid : validType (some ⟨typ, elem, some (pre ++ field :: post)⟩) = none)
    (hpre : (Unmarshal rt action (some ⟨typ, elem, some pre⟩)).outcome = Outcome.returned none)
    (hc : field.canSet = true) (ht : field.tag = some tag) (hn : inputNameOf tag ≠ "-")
    (hv : action.GetInput (inputNameOf tag) ≠ "") (hk : field.typ.str ∉ supportedTypes) :
    (Unmarshal rt action (some ⟨typ, elem, some (pre ++ field :: post)⟩)).outcome =
      Outcome.returned (some (GoError.wrapError
        ("field " ++ field.name ++ ": " ++ ("unsupported type " ++ field.typ.str))
        (GoError.errorString ("unsupported type " ++ field.typ.str)))) ∧
    List.Forall₂ (fun before after => ∀ value, Convertible rt action before value →
        after = { before with value := value })
      pre ((fieldsOf (Unmarshal rt action
        (some ⟨typ, elem, some (pre ++ field :: post)⟩)).v).take pre.length) ∧
    (fieldsOf (Unmarshal rt action (some ⟨typ, elem, some (pre ++ field :: post)⟩)).v).drop
      pre.length = field :: post := by
  have hstep := fieldStep_convert_error rt action field tag _ hc ht hn hv
    (convert_unsupported rt field.typ.str _ hk)
  refine ⟨?_, Unmarshal_stop_at_fields rt action typ elem pre post field _ _ hvalid hpre hstep⟩
  rw [Unmarshal_stop_at rt action typ elem pre post field _ _ hvalid hpre hstep]
  rfl

/-- C4, witness: `Name` is set to "x", then `Size` of type `uint` with the raw
value "7" fails. -/
theorem Unmarshal_unsupported_type_witness :
    validType (pointerTo ([nameField] ++ sizeField :: [])) = none ∧
    (Unmarshal testRuntime (actionOf [("name", "x"), ("size", "7")])
      (pointerTo [nameField])).outcome = Outcome.returned none ∧
    inputNameOf "size" ≠ "-" ∧
    (actionOf [("name", "x"), ("size", "7")]).GetInput (inputNameOf "size") ≠ "" ∧
    sizeField.typ.str ∉ supportedTypes ∧
    (Unmarshal testRuntime (actionOf [("name", "x"), ("size", "7")])
      (pointerTo ([nameField] ++ sizeField :: []))).outcome =
      Outcome.returned (some (GoError.wrapError
        ("field " ++ sizeField.name ++ ": " ++ ("unsupported type " ++ sizeField.typ.str))
        (GoError.errorString ("unsupported type " ++ sizeField.typ.str)))) ∧
    fieldsOf (Unmarshal testRuntime (actionOf [("name", "x"), ("size", "7")])
      (pointerTo ([nameField] ++ sizeField :: []))).v =
      [{ nameField with value := Value.string "x" }, sizeField] :=
  ⟨by decide, by decide, by decide, by decide, by decide,
    (Unmarshal_unsupported_type testRuntime (actionOf [("name", "x"), ("size", "7")]) _ _
      [nameField] [] sizeField "size" (by decide) (by decide) rfl rfl (by decide) (by decide)
      (by decide)).1,
    by decide⟩

/-- C4, counterexample.  Two structs with a convertible field `Name` followed
by the bindable field `Size` of the unsupported type `uint`, on which
`Unmarshal` does not fail on `Size`: when the input of `Size` is unset the
call returns nil; when a field before them fails the call returns the
error of that field. -/
theorem Unmarshal_unsupported_not_reported :
    (Convertible testRuntime (actionOf [("name", "x")]) nameField (Value.string "x") ∧
      sizeField.typ.str ∉ supportedTypes ∧
      (Unmarshal testRuntime (actionOf [("name", "x")])
        (pointerTo [nameField, sizeField])).outcome = Outcome.returned none) ∧
    (Convertible testRuntime (actionOf [("level", "zz"), ("name", "x"), ("size", "7")])
        nameField (Value.string "x") ∧
      (Unmarshal testRuntime (actionOf [("level", "zz"), ("name", "x"), ("size", "7")])
        (pointerTo [levelField, nameField, sizeField])).outcome =
        Outcome.returned (some (GoError.wrapError
          "field Level: strconv.Atoi: parsing \"zz\": invalid syntax"
          (numError "Atoi" "zz" "invalid syntax")))) := by
  decide

/-! ## C5: a conversion that fails -/

/-- C5, amended.  On a valid destination, when no field before it stops the
walk, a bindable field with a non-empty raw value on which `convert` fails
with the error `e` makes `Unmarshal` return an error whose message is
"field Name: " followed by the message of `e`, with the name of the struct
field, and which wraps `e`; the field and those after it are as before the
call and `Set` is not called for the field. -/
theorem Unmarshal_convert_error (rt : Runtime) (action : Action) (typ elem : RType)
    (pre post : List Field) (field : Field) (tag : String) (e : GoError)
    (hvalid : validType (some ⟨typ, elem, some (pre ++ field :: post)⟩) = none)
    (hpre : (Unmarshal rt action (some ⟨typ, elem, some pre⟩)).outcome = Outcome.returned none)
    (hc : field.canSet = true) (ht : field.tag = some tag) (hn : inputNameOf tag ≠ "-")
    (hv : action.GetInput (inputNameOf tag) ≠ "")
    (he : convert rt field.typ.str (action.GetInput (inputNameOf tag)) = Except.error e) :
    (∃ err, (Unmarshal rt action (some ⟨typ, elem, some (pre ++ field :: post)⟩)).outcome =
        Outcome.returned (some err) ∧
      err.Error = "field " ++ field.name ++ ": " ++ e.Error ∧ err.Unwrap = some e) ∧
    (fieldsOf (Unmarshal rt action (some ⟨typ, elem, some (pre ++ field :: post)⟩)).v).drop
      pre.length = field :: post ∧
    ∀ value, (pre.length, Call.Set value) ∉
      (Unmarshal rt action (some ⟨typ, elem, some (pre ++ field :: post)⟩)).trace := by
  have hstep := fieldStep_convert_error rt action field tag e hc ht hn hv he
  refine ⟨?_, (Unmarshal_stop_at_fields rt action typ elem pre post field _ _
    hvalid hpre hstep).2, ?_⟩
  · rw [Unmarshal_stop_at rt action typ elem pre post field _ _ hvalid hpre hstep]
    exact ⟨_, rfl, rfl, rfl⟩
  · rw [Unmarshal_stop_at rt action typ elem pre post field _ _ hvalid hpre hstep]
    intro value hmem
    simp only [List.mem_append, List.map_cons, List.map_nil, List.mem_cons, List.mem_singleton,
      Prod.mk.injEq, List.not_mem_nil, or_false] at hmem
    rcases hmem with hmem | ⟨_, hmem⟩ | ⟨_, hmem⟩
    · have := Unmarshal_trace_index rt action (some ⟨typ, elem, some pre⟩) _ hmem
      simp [fieldsOf] at this
    · cases hmem
    · cases hmem

/-- C5, witness: `Name` is set to "x", then `Count` fails on "zz". -/
theorem Unmarshal_convert_error_witness :
    validType (pointerTo ([nameField] ++ countField :: [labelField])) = none ∧
    (Unmarshal testRuntime (actionOf [("name", "x"), ("count", "zz"), ("label", "new")])
      (pointerTo [nameField])).outcome = Outcome.returned none ∧
    inputNameOf "count" ≠ "-" ∧
    (actionOf [("name", "x"), ("count", "zz"), ("label", "new")]).GetInput
      (inputNameOf "count") ≠ "" ∧
    convert testRuntime countField.typ.str
      ((actionOf [("name", "x"), ("count", "zz"), ("label", "new")]).GetInput
        (inputNameOf "count")) = Except.error (numError "Atoi" "zz" "invalid syntax") ∧
    (∃ err, (Unmarshal testRuntime (actionOf [("name", "x"), ("count", "zz"), ("label", "new")])
        (pointerTo ([nameField] ++ countField :: [labelField]))).outcome =
        Outcome.returned (some err) ∧
      err.Error = "field " ++ countField.name ++ ": " ++
        (numError "Atoi" "zz" "invalid syntax").Error ∧
      err.Unwrap = some (numError "Atoi" "zz" "invalid syntax")) ∧
    fieldsOf (Unmarshal testRuntime (actionOf [("name", "x"), ("count", "zz"), ("label", "new")])
      (pointerTo ([nameField] ++ countField :: [labelField]))).v =
      [{ nameField with value := Value.string "x" }, countField, labelField] :=
  ⟨by decide, by decide, by decide, by decide, by decide,
    (Unmarshal_convert_error testRuntime
      (actionOf [("name", "x"), ("count", "zz"), ("label", "new")]) _ _
      [nameField] [labelField] countField "count" (numError "Atoi" "zz" "invalid syntax")
      (by decide) (by decide) rfl rfl (by decide) (by decide) (by decide)).1,
    by decide⟩

/-- C5, counterexample.  `Level` is a bindable field with the raw value "yy" on
which `convert` fails, but the error `Unmarshal` returns is the one of the
field `Count` before it, which fails first: its message does not start
with "field Level: " and it does not wrap the error of `Level`. -/
theorem Unmarshal_convert_error_of_earlier_field :
    levelField.canSet = true ∧ levelField.tag = some "level" ∧ inputNameOf "level" ≠ "-" ∧
    (actionOf [("count", "zz"), ("level", "yy")]).GetInput (inputNameOf "level") = "yy" ∧
    convert testRuntime levelField.typ.str "yy" =
      Except.error (numError "Atoi" "yy" "invalid syntax") ∧
    (Unmarshal testRuntime (actionOf [("count", "zz"), ("level", "yy")])
      (pointerTo [countField, levelField])).outcome =
      Outcome.returned (some (GoError.wrapError
        "field Count: strconv.Atoi: parsing \"zz\": invalid syntax"
        (numError "Atoi" "zz" "invalid syntax"))) ∧
    (Unmarshal testRuntime (actionOf [("count", "zz"), ("level", "yy")])
      (pointerTo [countField, levelField])).outcome ≠
      Outcome.returned (some (GoError.wrapError
        ("field Level: " ++ (numError "Atoi" "yy" "invalid syntax").Error)
        (numError "Atoi" "yy" "invalid syntax"))) := by
  decide

/-! ## C6: no rollback -/

/-- A field whose processing fails makes the iteration leave the function
with an error. -/
theorem fieldStep_of_fails (rt : Runtime) (action : Action) (field : Field)
    (h : Fails rt action field) :
    ∃ err calls, fieldStep rt action field = (Step.stop (Outcome.returned (some err)), calls) := by
  obtain ⟨hc, hrest⟩ := h
  cases ht : field.tag with
  | none => simp [ht] at hrest
  | some tag =>
    simp only [ht] at hrest
    obtain ⟨hn, hcase⟩ := hrest
    rcases hcase with ⟨hv, hr⟩ | ⟨hv, he⟩
    · exact ⟨_, _, fieldStep_missing_required rt action field tag hc ht hn hv hr⟩
    · cases hconv : convert rt field.typ.str (action.GetInput (inputNameOf tag)) with
      | ok value => rw [hconv] at he; simp [Except.isOk, Except.toBool] at he
      | error err => exact ⟨_, _, fieldStep_convert_error rt action field tag err hc ht hn hv hconv⟩

/-- C6.  `Unmarshal` is not transactional: when processing fails at the field
with index N (the walk passes the N fields before it, and the field misses
a required input or fails to convert), `Unmarshal` returns an error, every
convertible field before N holds its newly assigned value, and field N and
the fields after it hold the values they had before the call. -/
theorem Unmarshal_not_transactional (rt : Runtime) (action : Action) (typ elem : RType)
    (pre post : List Field) (field : Field)
    (hvalid : validType (some ⟨typ, elem, some (pre ++ field :: post)⟩) = none)
    (hpre : (Unmarshal rt action (some ⟨typ, elem, some pre⟩)).outcome = Outcome.returned none)
    (hfail : Fails rt action field) :
    (∃ err, (Unmarshal rt action (some ⟨typ, elem, some (pre ++ field :: post)⟩)).outcome =
      Outcome.returned (some err)) ∧
    List.Forall₂ (fun before after => ∀ value, Convertible rt action before value →
        after = { before with value := value })
      pre ((fieldsOf (Unmarshal rt action
        (some ⟨typ, elem, some (pre ++ field :: post)⟩)).v).take pre.length) ∧
    (fieldsOf (Unmarshal rt action (some ⟨typ, elem, some (pre ++ field :: post)⟩)).v).drop
      pre.length = field :: post := by
  obtain ⟨err, calls, hstep⟩ := fieldStep_of_fails rt action field hfail
  refine ⟨⟨err, ?_⟩, Unmarshal_stop_at_fields rt action typ elem pre post field _ _
    hvalid hpre hstep⟩
  rw [Unmarshal_stop_at rt action typ elem pre post field _ _ hvalid hpre hstep]

/-- C6, witness: `Name` is set to "x", `Count` fails on "zz", and `Label`,
whose input is "new", still holds "old". -/
theorem Unmarshal_not_transactional_witness :
    validType (pointerTo ([nameField] ++ countField :: [labelField])) = none ∧
    (Unmarshal testRuntime (actionOf [("name", "x"), ("count", "zz"), ("label", "new")])
      (pointerTo [nameField])).outcome = Outcome.returned none ∧
    Fails testRuntime (actionOf [("name", "x"), ("count", "zz"), ("label", "new")])
      countField ∧
    (∃ err, (Unmarshal testRuntime
        (actionOf [("name", "x"), ("count", "zz"), ("label", "new")])
        (pointerTo ([nameField] ++ countField :: [labelField]))).outcome =
      Outcome.returned (some err)) ∧
    fieldsOf (Unmarshal testRuntime (actionOf [("name", "x"), ("count", "zz"), ("label", "new")])
      (pointerTo ([nameField] ++ countField :: [labelField]))).v =
      [{ nameField with value := Value.string "x" }, countField, labelField] :=
  ⟨by decide, by decide, by decide,
    (Unmarshal_not_transactional testRuntime
      (actionOf [("name", "x"), ("count", "zz"), ("label", "new")]) _ _
      [nameField] [labelField] countField (by decide) (by decide) (by decide)).1,
    by decide⟩

/-! ## Fields the walk passes over -/

/-- A field whose iteration goes on and leaves the field as it is does not
change what the loop does with the other fields: the outcome is the outcome
of the loop over the struct without the field, the other fields end as they
end there, the field keeps its contents, and the only calls made for the
field are those of its own iteration. -/
theorem fieldLoop_skip (rt : Runtime) (action : Action) (pre post : List Field)
    (field : Field) (calls : List Call)
    (hstep : fieldStep rt action field = (Step.next field, calls)) :
    (fieldLoop rt action 0 (pre ++ field :: post)).outcome =
      (fieldLoop rt action 0 (pre ++ post)).outcome ∧
    (fieldLoop rt action 0 (pre ++ field :: post)).fields =
      (fieldLoop rt action 0 (pre ++ post)).fields.take pre.length ++
        field :: (fieldLoop rt action 0 (pre ++ post)).fields.drop pre.length ∧
    ∀ e ∈ (fieldLoop rt action 0 (pre ++ field :: post)).trace,
      e.1 = pre.length → e.2 ∈ calls := by
  have hlen := fieldLoop_length rt action pre 0
  by_cases hpre : (fieldLoop rt action 0 pre).outcome = Outcome.returned none
  · rw [fieldLoop_next_at rt action pre post field field calls hpre hstep,
      fieldLoop_append rt action pre post 0, if_pos hpre]
    have hidx := fieldLoop_index rt action post (pre.length + 1) (0 + pre.length)
    refine ⟨hidx.2, ?_, ?_⟩
    · simp only [List.take_left' hlen, List.drop_left' hlen, hidx.1]
    · intro e he hidx1
      simp only [List.mem_append, List.mem_map] at he
      rcases he with he | ⟨c, hc, rfl⟩ | he
      · have := fieldLoop_trace_index rt action pre 0 e he
        omega
      · exact hc
      · have := fieldLoop_trace_index rt action post (pre.length + 1) e he
        omega
  · rw [fieldLoop_stop_before rt action pre (field :: post) hpre,
      fieldLoop_stop_before rt action pre post hpre]
    refine ⟨rfl, ?_, ?_⟩
    · simp only [List.take_left' hlen, List.drop_left' hlen]
    · intro e he hidx1
      have := fieldLoop_trace_index rt action pre 0 e he
      omega

/-- The same for `Unmarshal`, on every destination. -/
theorem Unmarshal_skip (rt : Runtime) (action : Action) (typ elem : RType)
    (pre post : List Field) (field : Field) (calls : List Call)
    (hstep : fieldStep rt action field = (Step.next field, calls)) :
    (Unmarshal rt action (some ⟨typ, elem, some (pre ++ field :: post)⟩)).outcome =
      (Unmarshal rt action (some ⟨typ, elem, some (pre ++ post)⟩)).outcome ∧
    fieldsOf (Unmarshal rt action (some ⟨typ, elem, some (pre ++ field :: post)⟩)).v =
      (fieldsOf (Unmarshal rt action (some ⟨typ, elem, some (pre ++ post)⟩)).v).take pre.length ++
        field :: (fieldsOf (Unmarshal rt action
          (some ⟨typ, elem, some (pre ++ post)⟩)).v).drop pre.length ∧
    ∀ e ∈ (Unmarshal rt action (some ⟨typ, elem, some (pre ++ field :: post)⟩)).trace,
      e.1 = pre.length → e.2 ∈ calls := by
  have hsame := validType_fields typ elem (pre ++ field :: post) (pre ++ post)
  cases hvalid : validType (some ⟨typ, elem, some (pre ++ field :: post)⟩) with
  | some err =>
    rw [Unmarshal_invalid rt action _ err hvalid,
      Unmarshal_invalid rt action _ err (hsame ▸ hvalid)]
    simp [fieldsOf]
  | none =>
    rw [Unmarshal_valid rt action typ elem _ hvalid,
      Unmarshal_valid rt action typ elem _ (hsame ▸ hvalid)]
    simpa [fieldsOf] using fieldLoop_skip rt action pre post field calls hstep

/-- The field at the place of `field` after the call, from the equation of
`Unmarshal_skip`. -/
theorem getElem_of_skip (fields after : List Field) (field : Field) (n : Nat)
    (h : fields = after.take n ++ field :: after.drop n) (hn : n ≤ after.length) :
    fields[n]? = some field := by
  rw [h, List.getElem?_append_right (by simp)]
  simp [Nat.min_eq_left hn]

/-- The loop body never looks up the input "-". -/
theorem fieldStep_no_sentinel (rt : Runtime) (action : Action) (field : Field) :
    Call.GetInput "-" ∉ (fieldStep rt action field).2 := by
  rcases stepCase rt action field with hc | ⟨hc, ht⟩ | ⟨tag, hc, ht, hn⟩ |
    ⟨tag, hc, ht, hn, hv, hr⟩ | ⟨tag, hc, ht, hn, hv, hr⟩ | ⟨tag, err, hc, ht, hn, hv, he⟩ |
    ⟨tag, value, hc, ht, hn, hv, he, ha⟩ | ⟨tag, value, hc, ht, hn, hv, he, ha⟩
  · rw [fieldStep_cannot_set rt action field hc]; simp
  · rw [fieldStep_no_tag rt action field ht]; simp
  · rw [fieldStep_ignored rt action field tag ht hn]; simp
  · rw [fieldStep_missing_required rt action field tag hc ht hn hv hr]
    simpa using fun h => hn h.symm
  · rw [fieldStep_missing_optional rt action field tag hc ht hn hv hr]
    simpa using fun h => hn h.symm
  · rw [fieldStep_convert_error rt action field tag err hc ht hn hv he]
    simpa using fun h => hn h.symm
  · rw [fieldStep_set rt action field tag value hc ht hn hv he ha]
    simpa using fun h => hn h.symm
  · rw [fieldStep_set_panics rt action field tag value hc ht hn hv he ha]
    simpa using fun h => hn h.symm

/-- The loop never looks up the input "-". -/
theorem fieldLoop_no_sentinel (rt : Runtime) (action : Action) (fields : List Field) :
    ∀ index, ∀ e ∈ (fieldLoop rt action index fields).trace, e.2 ≠ Call.GetInput "-" := by
  induction fields with
  | nil => intro index e he; simp [fieldLoop] at he
  | cons field rest ih =>
    intro index e he
    have hno := fieldStep_no_sentinel rt action field
    rcases fieldStep_next_or_stop rt action field with ⟨f1, calls, h⟩ | ⟨o, calls, h⟩
    · rw [fieldLoop_cons_next rt action index field f1 rest calls h] at he
      rw [h] at hno
      simp only [List.mem_append, List.mem_map] at he
      rcases he with ⟨c, hc, rfl⟩ | he
      · intro heq; exact hno (heq ▸ hc)
      · exact ih (index + 1) e he
    · rw [fieldLoop_cons_stop rt action index field rest o calls h] at he
      rw [h] at hno
      simp only [List.mem_map] at he
      rcases he with ⟨c, hc, rfl⟩
      intro heq; exact hno (heq ▸ hc)

/-- The call `Unmarshal` never looks up the input "-". -/
theorem Unmarshal_no_sentinel (rt : Runtime) (action : Action) (v : GoAny) :
    ∀ e ∈ (Unmarshal rt action v).trace, e.2 ≠ Call.GetInput "-" := by
  intro e he
  cases hv : validType v with
  | some err => rw [Unmarshal_invalid rt action v err hv] at he; simp at he
  | none =>
    cases v with
    | none => simp [validType] at hv
    | some i =>
      obtain ⟨typ, elem, target⟩ := i
      cases target with
      | none => simp [Unmarshal, hv] at he
      | some fields =>
        rw [Unmarshal_valid rt action typ elem fields hv] at he
        exact fieldLoop_no_sentinel rt action fields 0 e he

/-- What `Unmarshal_skip` gives for a field the walk passes over without
calls. -/
theorem Unmarshal_skip_silent (rt : Runtime) (action : Action) (typ elem : RType)
    (pre post : List Field) (field : Field)
    (hstep : fieldStep rt action field = (Step.next field, [])) :
    (fieldsOf (Unmarshal rt action
      (some ⟨typ, elem, some (pre ++ field :: post)⟩)).v)[pre.length]? = some field ∧
    (∀ e ∈ (Unmarshal rt action (some ⟨typ, elem, some (pre ++ field :: post)⟩)).trace,
      e.1 ≠ pre.length) ∧
    (Unmarshal rt action (some ⟨typ, elem, some (pre ++ field :: post)⟩)).outcome =
      (Unmarshal rt action (some ⟨typ, elem, some (pre ++ post)⟩)).outcome ∧
    fieldsOf (Unmarshal rt action (some ⟨typ, elem, some (pre ++ field :: post)⟩)).v =
      (fieldsOf (Unmarshal rt action (some ⟨typ, elem, some (pre ++ post)⟩)).v).take pre.length ++
        field :: (fieldsOf (Unmarshal rt action
          (some ⟨typ, elem, some (pre ++ post)⟩)).v).drop pre.length := by
  obtain ⟨hout, hfields, htrace⟩ := Unmarshal_skip rt action typ elem pre post field [] hstep
  have hlen := Unmarshal_length rt action (some ⟨typ, elem, some (pre ++ post)⟩)
  refine ⟨getElem_of_skip _ _ field pre.length hfields ?_, ?_, hout, hfields⟩
  · rw [hlen]; simp [fieldsOf]
  · intro e he hidx
    simpa using htrace e he hidx

/-! ## C7: the sentinel "-" -/

/-- C7.  For every destination and lookup, a field whose tag is "-" or
"-,required" is never looked up and never written: no call is made for it,
the input "-" is looked up for no field, the field is after the call what it
was before, and the call ends as it ends on the struct without the field,
with the other fields as they end there; so the field causes no error,
whatever the lookup returns for "-". -/
theorem Unmarshal_ignores_sentinel (rt : Runtime) (action : Action) (typ elem : RType)
    (pre post : List Field) (field : Field)
    (htag : field.tag = some "-" ∨ field.tag = some "-,required") :
    (fieldsOf (Unmarshal rt action
      (some ⟨typ, elem, some (pre ++ field :: post)⟩)).v)[pre.length]? = some field ∧
    (∀ e ∈ (Unmarshal rt action (some ⟨typ, elem, some (pre ++ field :: post)⟩)).trace,
      e.1 ≠ pre.length ∧ e.2 ≠ Call.GetInput "-") ∧
    (Unmarshal rt action (some ⟨typ, elem, some (pre ++ field :: post)⟩)).outcome =
      (Unmarshal rt action (some ⟨typ, elem, some (pre ++ post)⟩)).outcome ∧
    fieldsOf (Unmarshal rt action (some ⟨typ, elem, some (pre ++ field :: post)⟩)).v =
      (fieldsOf (Unmarshal rt action (some ⟨typ, elem, some (pre ++ post)⟩)).v).take pre.length ++
        field :: (fieldsOf (Unmarshal rt action
          (some ⟨typ, elem, some (pre ++ post)⟩)).v).drop pre.length := by
  have hstep : fieldStep rt action field = (Step.next field, []) := by
    rcases htag with ht | ht
    · exact fieldStep_ignored rt action field "-" ht (by decide)
    · exact fieldStep_ignored rt action field "-,required" ht (by decide)
  obtain ⟨h1, h2, h3, h4⟩ := Unmarshal_skip_silent rt action typ elem pre post field hstep
  exact ⟨h1, fun e he => ⟨h2 e he, Unmarshal_no_sentinel rt action _ e he⟩, h3, h4⟩

/-- C7, witness: a struct whose second field has the tag "-,required", with
a lookup that has a value for "-". -/
theorem Unmarshal_ignores_sentinel_witness :
    ((taggedField "Secret" stringType "-,required" (Value.string "keep")).tag = some "-" ∨
      (taggedField "Secret" stringType "-,required" (Value.string "keep")).tag =
        some "-,required") ∧
    (fieldsOf (Unmarshal testRuntime (actionOf [("-", "new"), ("name", "x")])
      (pointerTo ([taggedField "Name" stringType "name" (Value.string "")] ++
        taggedField "Secret" stringType "-,required" (Value.string "keep") :: []))).v)[1]? =
      some (taggedField "Secret" stringType "-,required" (Value.string "keep")) ∧
    (Unmarshal testRuntime (actionOf [("-", "new"), ("name", "x")])
      (pointerTo ([taggedField "Name" stringType "name" (Value.string "")] ++
        taggedField "Secret" stringType "-,required" (Value.string "keep") :: []))).outcome =
      Outcome.returned none :=
  ⟨Or.inr rfl,
    (Unmarshal_ignores_sentinel testRuntime (actionOf [("-", "new"), ("name", "x")]) _ _
      [taggedField "Name" stringType "name" (Value.string "")] []
      (taggedField "Secret" stringType "-,required" (Value.string "keep")) (Or.inr rfl)).1,
    by decide⟩

/-! ## C8: fields without tag -/

/-- C8.  For every destination and lookup, a field without `input` tag is
never read and never written: no call is made for it, after the call it is
what it was before (a zero field stays zero), whether the call returns nil,
returns an error or panics, and the call ends as it ends on the struct
without the field. -/
theorem Unmarshal_ignores_untagged (rt : Runtime) (action : Action) (typ elem : RType)
    (pre post : List Field) (field : Field) (htag : field.tag = none) :
    (fieldsOf (Unmarshal rt action
      (some ⟨typ, elem, some (pre ++ field :: post)⟩)).v)[pre.length]? = some field ∧
    (∀ e ∈ (Unmarshal rt action (some ⟨typ, elem, some (pre ++ field :: post)⟩)).trace,
      e.1 ≠ pre.length) ∧
    (Unmarshal rt action (some ⟨typ, elem, some (pre ++ field :: post)⟩)).outcome =
      (Unmarshal rt action (some ⟨typ, elem, some (pre ++ post)⟩)).outcome ∧
    fieldsOf (Unmarshal rt action (some ⟨typ, elem, some (pre ++ field :: post)⟩)).v =
      (fieldsOf (Unmarshal rt action (some ⟨typ, elem, some (pre ++ post)⟩)).v).take pre.length ++
        field :: (fieldsOf (Unmarshal rt action
          (some ⟨typ, elem, some (pre ++ post)⟩)).v).drop pre.length :=
  Unmarshal_skip_silent rt action typ elem pre post field
    (fieldStep_no_tag rt action field htag)

/-- C8, witness: a struct with an untagged field `Extra` between a field
that is set and a field that fails. -/
theorem Unmarshal_ignores_untagged_witness :
    (⟨"Extra", intType, none, true, Value.int 0⟩ : Field).tag = none ∧
    (fieldsOf (Unmarshal testRuntime (actionOf [("name", "x"), ("count", "zz")])
      (pointerTo ([taggedField "Name" stringType "name" (Value.string "")] ++
        ⟨"Extra", intType, none, true, Value.int 0⟩ ::
          [taggedField "Count" intType "count" (Value.int 0)]))).v)[1]? =
      some ⟨"Extra", intType, none, true, Value.int 0⟩ ∧
    (Unmarshal testRuntime (actionOf [("name", "x"), ("count", "zz")])
      (pointerTo ([taggedField "Name" stringType "name" (Value.string "")] ++
        ⟨"Extra", intType, none, true, Value.int 0⟩ ::
          [taggedField "Count" intType "count" (Value.int 0)]))).outcome =
      Outcome.returned (some (GoError.wrapError
        "field Count: strconv.Atoi: parsing \"zz\": invalid syntax"
        (numError "Atoi" "zz" "invalid syntax"))) :=
  ⟨rfl,
    (Unmarshal_ignores_untagged testRuntime (actionOf [("name", "x"), ("count", "zz")]) _ _
      [taggedField "Name" stringType "name" (Value.string "")]
      [taggedField "Count" intType "count" (Value.int 0)]
      ⟨"Extra", intType, none, true, Value.int 0⟩ rfl).1,
    by decide⟩

/-! ## C9: an optional input without value -/

/-- C9.  A bindable field (writable, tagged, input name not "-") that is not
flagged required and for which the lookup returns the empty string is
skipped: after the call it is what it was before, the only call made for it
is the lookup of its input (`convert` and `Set` are not called, whatever
its declared type), and the call ends as it ends on the struct without the
field, with the other fields as they end there, so the walk goes on with
the fields after it. -/
theorem Unmarshal_skips_unset_optional (rt : Runtime) (action : Action) (typ elem : RType)
    (pre post : List Field) (field : Field) (tag : String)
    (hc : field.canSet = true) (ht : field.tag = some tag) (hn : inputNameOf tag ≠ "-")
    (hr : requiredOf tag = false) (hv : action.GetInput (inputNameOf tag) = "") :
    (fieldsOf (Unmarshal rt action
      (some ⟨typ, elem, some (pre ++ field :: post)⟩)).v)[pre.length]? = some field ∧
    (∀ e ∈ (Unmarshal rt action (some ⟨typ, elem, some (pre ++ field :: post)⟩)).trace,
      e.1 = pre.length → e.2 = Call.GetInput (inputNameOf tag)) ∧
    (Unmarshal rt action (some ⟨typ, elem, some (pre ++ field :: post)⟩)).outcome =
      (Unmarshal rt action (some ⟨typ, elem, some (pre ++ post)⟩)).outcome ∧
    fieldsOf (Unmarshal rt action (some ⟨typ, elem, some (pre ++ field :: post)⟩)).v =
      (fieldsOf (Unmarshal rt action (some ⟨typ, elem, some (pre ++ post)⟩)).v).take pre.length ++
        field :: (fieldsOf (Unmarshal rt action
          (some ⟨typ, elem, some (pre ++ post)⟩)).v).drop pre.length := by
  have hstep := fieldStep_missing_optional rt action field tag hc ht hn hv hr
  obtain ⟨hout, hfields, htrace⟩ := Unmarshal_skip rt action typ elem pre post field _ hstep
  have hlen := Unmarshal_length rt action (some ⟨typ, elem, some (pre ++ post)⟩)
  refine ⟨getElem_of_skip _ _ field pre.length hfields ?_, ?_, hout, hfields⟩
  · rw [hlen]; simp [fieldsOf]
  · intro e he hidx
    simpa using htrace e he hidx

/-- C9, witness: an optional field of the unsupported type `uint` whose
input is unset, followed by a field that is set. -/
theorem Unmarshal_skips_unset_optional_witness :
    inputNameOf "count" ≠ "-" ∧ requiredOf "count" = false ∧
    (actionOf [("name", "x")]).GetInput (inputNameOf "count") = "" ∧
    (fieldsOf (Unmarshal testRuntime (actionOf [("name", "x")])
      (pointerTo ([] ++ taggedField "Count" uintType "count" (Value.other uintType "0") ::
        [taggedField "Name" stringType "name" (Value.string "")]))).v)[0]? =
      some (taggedField "Count" uintType "count" (Value.other uintType "0")) ∧
    (Unmarshal testRuntime (actionOf [("name", "x")])
      (pointerTo ([] ++ taggedField "Count" uintType "count" (Value.other uintType "0") ::
        [taggedField "Name" stringType "name" (Value.string "")]))) =
      ⟨pointerTo [taggedField "Count" uintType "count" (Value.other uintType "0"),
          taggedField "Name" stringType "name" (Value.string "x")],
        Outcome.returned none,
        [(0, Call.GetInput "count"), (1, Call.GetInput "name"),
          (1, Call.convert "string" "x"), (1, Call.Set (Value.string "x"))]⟩ :=
  ⟨by decide, by decide, by decide,
    (Unmarshal_skips_unset_optional testRuntime (actionOf [("name", "x")]) _ _ []
      [taggedField "Name" stringType "name" (Value.string "")]
      (taggedField "Count" uintType "count" (Value.other uintType "0")) "count"
      rfl rfl (by decide) (by decide) (by decide)).1,
    by decide⟩

/-! ## C10: split -/

/-- The loop of `FieldsFunc` yields the non-empty pieces between the
separators. -/
theorem fieldsFuncLoop_eq (f : Char → Bool) (s : List Char) :
    fieldsFuncLoop f s none =
      (List.splitOnP.go f s []).filter (fun piece => piece ≠ []) ∧
    ∀ cur, cur ≠ [] → fieldsFuncLoop f s (some cur) =
      (List.splitOnP.go f s cur.reverse).filter (fun piece => piece ≠ []) := by
  induction s with
  | nil =>
    constructor
    · simp [fieldsFuncLoop, List.splitOnP.go]
    · intro cur hcur
      simp [fieldsFuncLoop, List.splitOnP.go, hcur]
  | cons r rest ih =>
    obtain ⟨ih1, ih2⟩ := ih
    constructor
    · by_cases hf : f r = true
      · simp [fieldsFuncLoop, List.splitOnP.go, hf, ih1]
      · have h := ih2 [r] (by simp)
        simp only [List.reverse_singleton] at h
        simp [fieldsFuncLoop, List.splitOnP.go, hf, h]
    · intro cur hcur
      by_cases hf : f r = true
      · simp [fieldsFuncLoop, List.splitOnP.go, hf, ih1, hcur]
      · have h := ih2 (cur ++ [r]) (by simp)
        simp only [List.reverse_append, List.reverse_singleton, List.singleton_append] at h
        simp [fieldsFuncLoop, List.splitOnP.go, hf, h]

/-- Go: `strings.FieldsFunc` returns the non-empty pieces of the text cut
at the runes that satisfy `f`. -/
theorem fieldsFunc_eq (s : List Char) (f : Char → Bool) :
    fieldsFunc s f = (s.splitOnP f).filter (fun piece => piece ≠ []) :=
  (fieldsFuncLoop_eq f s).1

theorem trimSpace_nil : trimSpace [] = [] := by
  simp [trimSpace]

/-- Dropping the empty pieces before trimming changes nothing, since they
are dropped after trimming as well. -/
theorem filter_map_trimSpace (pieces : List (List Char)) :
    ((pieces.filter (fun piece => piece ≠ [])).map trimSpace).filter
        (fun piece => piece ≠ []) =
      (pieces.map trimSpace).filter (fun piece => piece ≠ []) := by
  induction pieces with
  | nil => simp
  | cons piece rest ih =>
    by_cases hp : piece = []
    · subst hp
      simpa [trimSpace_nil] using ih
    · simp only [List.filter_cons, hp, ne_eq, not_false_eq_true, decide_True, if_true,
        List.map_cons, ih]

/-- C10.  For every text, `split` returns the pieces of the text cut at every
comma and every newline, each trimmed of the white space around it, without
the pieces that are then empty, in their order; `convert` with the token
"[]string" returns that list and never fails.  On "foo,bar,baz" the list
is ["foo","bar","baz"], on "a,, b,\nc" it is ["a","b","c"], on "a,, b" it is
["a","b"], and on "" it is empty. -/
theorem split_eq_splitBySpec :
    (∀ value : String, split value = splitBySpec value) ∧
    (∀ (rt : Runtime) (value : String),
      convert rt "[]string" value = Except.ok (Value.strings (splitBySpec value))) ∧
    split "foo,bar,baz" = ["foo", "bar", "baz"] ∧
    split "a,, b,\nc" = ["a", "b", "c"] ∧
    split "a,, b" = ["a", "b"] ∧
    split "" = [] := by
  have hsplit : ∀ value : String, split value = splitBySpec value := by
    intro value
    have hf : (fun r : Char => r == '\n' || r == ',') = (fun r => r == ',' || r == '\n') := by
      funext r; exact Bool.or_comm _ _
    unfold split splitBySpec
    rw [fieldsFunc_eq, filter_map_trimSpace, hf]
  refine ⟨hsplit, ?_, by decide, by decide, by decide, by decide⟩
  intro rt value
  rw [← hsplit]
  simp [convert]

/-! ## C14: the messages of validType -/

/-- The messages of two different rejections differ, whatever the type and
kind names in them are. -/
theorem rejectionMessage_injective (r1 r2 : Rejection) (typ1 kind1 typ2 kind2 : String)
    (h : rejectionMessage r1 typ1 kind1 = rejectionMessage r2 typ2 kind2) : r1 = r2 := by
  have hdata := congrArg String.data h
  cases r1 <;> cases r2 <;> first
    | rfl
    | (exfalso; simp [rejectionMessage, String.data_append] at hdata)

/-- The error of `validType` is the message of the rejection of the
destination. -/
theorem validType_message (v : GoAny) (r : Rejection) (hr : rejectionOf v = some r) :
    ∃ typ kind, validType v = some (GoError.errorString (rejectionMessage r typ kind)) := by
  cases v with
  | none =>
    simp only [rejectionOf, Option.some.injEq] at hr
    subst hr
    exact ⟨"", "", rfl⟩
  | some i =>
    refine ⟨i.typ.str, kindString i.elem.kind, ?_⟩
    by_cases hk : i.typ.kind = Kind.Pointer
    · cases ht : i.target with
      | none =>
        simp only [rejectionOf, hk, ht, ne_eq, not_true_eq_false, if_false, if_true,
          Option.some.injEq] at hr
        subst hr
        simp [validType, hk, ht, rejectionMessage]
      | some fields =>
        by_cases he : i.elem.kind = Kind.Struct
        · simp [rejectionOf, hk, ht, he] at hr
        · simp only [rejectionOf, hk, ht, he, ne_eq, not_true_eq_false, if_false,
            not_false_eq_true, if_true, Option.some.injEq, reduceCtorEq] at hr
          subst hr
          simp [validType, hk, ht, he, rejectionMessage]
    · simp only [rejectionOf, hk, ne_eq, not_false_eq_true, if_true, Option.some.injEq] at hr
      subst hr
      simp [validType, hk, rejectionMessage]

/-- A destination that `validType` rejects falls under a rejection. -/
theorem rejectionOf_of_error (v : GoAny) (err : GoError) (h : validType v = some err) :
    ∃ r, rejectionOf v = some r := by
  cases v with
  | none => exact ⟨Rejection.nilValue, rfl⟩
  | some i =>
    by_cases hk : i.typ.kind = Kind.Pointer
    · cases ht : i.target with
      | none => exact ⟨Rejection.nilPointer, by simp [rejectionOf, hk, ht]⟩
      | some fields =>
        by_cases he : i.elem.kind = Kind.Struct
        · simp [validType, hk, ht, he] at h
        · exact ⟨Rejection.nonStruct, by simp [rejectionOf, hk, ht, he]⟩
    · exact ⟨Rejection.nonPointer, by simp [rejectionOf, hk]⟩

/-- C14.  The four rejections of `validType` have the messages "nil" (nil
value), "non-pointer T" (not a pointer), "nil T" (nil pointer) and
"non-struct K" (pointer to something that is not a struct), with T the
printed type and K the printed kind of the element; the four messages are
pairwise distinct whatever texts T and K are, so two destinations that
`validType` rejects with the same message fall under the same rejection. -/
theorem validType_messages_distinct :
    (∀ v : GoAny, v = none → validType v = some (GoError.errorString "nil")) ∧
    (∀ i : Iface, i.typ.kind ≠ Kind.Pointer →
      validType (some i) = some (GoError.errorString ("non-pointer " ++ i.typ.str))) ∧
    (∀ i : Iface, i.typ.kind = Kind.Pointer → i.target = none →
      validType (some i) = some (GoError.errorString ("nil " ++ i.typ.str))) ∧
    (∀ (i : Iface) (fields : List Field), i.typ.kind = Kind.Pointer →
      i.target = some fields → i.elem.kind ≠ Kind.Struct →
      validType (some i) =
        some (GoError.errorString ("non-struct " ++ kindString i.elem.kind))) ∧
    (∀ t1 t2 k : String,
      "nil" ≠ "non-pointer " ++ t1 ∧ "nil" ≠ "nil " ++ t2 ∧ "nil" ≠ "non-struct " ++ k ∧
      "non-pointer " ++ t1 ≠ "nil " ++ t2 ∧ "non-pointer " ++ t1 ≠ "non-struct " ++ k ∧
      "nil " ++ t2 ≠ "non-struct " ++ k) ∧
    (∀ (v w : GoAny) (e1 e2 : GoError), validType v = some e1 → validType w = some e2 →
      e1.Error = e2.Error → rejectionOf v = rejectionOf w) := by
  refine ⟨?_, ?_, ?_, ?_, ?_, ?_⟩
  · rintro v rfl; rfl
  · intro i hk; simp [validType, hk]
  · intro i hk ht; simp [validType, hk, ht]
  · intro i fields hk ht he; simp [validType, hk, ht, he]
  · intro t1 t2 k
    refine ⟨?_, ?_, ?_, ?_, ?_, ?_⟩ <;>
      (intro h; have hdata := congrArg String.data h
       simp [String.data_append] at hdata)
  · intro v w e1 e2 hv hw hmsg
    obtain ⟨r1, hr1⟩ := rejectionOf_of_error v e1 hv
    obtain ⟨r2, hr2⟩ := rejectionOf_of_error w e2 hw
    obtain ⟨typ1, kind1, hm1⟩ := validType_message v r1 hr1
    obtain ⟨typ2, kind2, hm2⟩ := validType_message w r2 hr2
    rw [hv, Option.some.injEq] at hm1
    rw [hw, Option.some.injEq] at hm2
    subst hm1 hm2
    rw [hr1, hr2, rejectionMessage_injective r1 r2 typ1 kind1 typ2 kind2 hmsg]

/-! ## C15: validation comes first -/

/-- C15.  For every destination on which `validType` returns an error,
`Unmarshal` returns exactly that error, makes no call (no lookup of an
input, no `convert`, no `Set`) and leaves the destination as it is. -/
theorem Unmarshal_validates_first (rt : Runtime) (action : Action) (v : GoAny)
    (err : GoError) (h : validType v = some err) :
    (Unmarshal rt action v).outcome = Outcome.returned (some err) ∧
    (Unmarshal rt action v).trace = [] ∧
    (Unmarshal rt action v).v = v := by
  rw [Unmarshal_invalid rt action v err h]
  exact ⟨rfl, rfl, rfl⟩

/-- C15, witness: a pointer to a string, given a lookup that has a value
for every input of `TestUnmarshal`. -/
theorem Unmarshal_validates_first_witness :
    validType (some ⟨⟨"", "*string", Kind.Pointer⟩, stringType, some []⟩) =
      some (GoError.errorString "non-struct string") ∧
    (Unmarshal testRuntime testAction
        (some ⟨⟨"", "*string", Kind.Pointer⟩, stringType, some []⟩)).outcome =
      Outcome.returned (some (GoError.errorString "non-struct string")) ∧
    (Unmarshal testRuntime testAction
        (some ⟨⟨"", "*string", Kind.Pointer⟩, stringType, some []⟩)).trace = [] ∧
    (Unmarshal testRuntime testAction
        (some ⟨⟨"", "*string", Kind.Pointer⟩, stringType, some []⟩)).v =
      some ⟨⟨"", "*string", Kind.Pointer⟩, stringType, some []⟩ :=
  ⟨by decide,
    Unmarshal_validates_first testRuntime testAction _
      (GoError.errorString "non-struct string") (by decide)⟩

/-! ## C17: parsing the tag -/

/-- The tag that is flagged required ends with ",required". -/
theorem requiredOf_iff (tag : String) :
    requiredOf tag = true ↔ ∃ name : String, tag = name ++ ",required" := by
  constructor
  · intro h
    unfold requiredOf cutSuffix at h
    by_cases hs : (",required" : String).data.isSuffixOf tag.data = true
    · rw [List.isSuffixOf_iff_suffix] at hs
      obtain ⟨t, ht⟩ := hs
      refine ⟨String.mk t, ?_⟩
      apply String.ext
      rw [String.data_append, ← ht]
    · rw [if_neg hs] at h
      simp at h
  · rintro ⟨name, rfl⟩
    exact requiredOf_required name

/-- The tag that is not flagged required is its own input name. -/
theorem inputNameOf_optional (tag : String) (h : requiredOf tag = false) :
    inputNameOf tag = tag := by
  unfold requiredOf cutSuffix at h
  unfold inputNameOf cutSuffix
  by_cases hs : (",required" : String).data.isSuffixOf tag.data = true
  · rw [if_pos hs] at h
    simp at h
  · rw [if_neg hs]

/-- C17.  For every tag, the field is required if and only if the tag ends
with ",required"; the input name of the tag `name,required` is `name` (one
trailing ",required" is removed, not more), and the input name of a tag that
does not end so is the whole tag.  A writable field whose input name is not
"-" looks up that name first, and when the value is empty it stops with the
"no value" error if the tag is required and goes on otherwise.  So the tag
"x" binds the input "x" as optional, "x,required" binds "x" as required,
"x,required,required" binds "x,required" as required, and "-,required" has
the name "-" and is ignored. -/
theorem tag_parsing :
    (∀ tag : String, requiredOf tag = true ↔ ∃ name : String, tag = name ++ ",required") ∧
    (∀ name : String, inputNameOf (name ++ ",required") = name) ∧
    (∀ tag : String, (¬ ∃ name : String, tag = name ++ ",required") →
      inputNameOf tag = tag) ∧
    (∀ (rt : Runtime) (action : Action) (field : Field) (tag : String),
      field.canSet = true → field.tag = some tag → inputNameOf tag ≠ "-" →
      (fieldStep rt action field).2.head? = some (Call.GetInput (inputNameOf tag)) ∧
      (action.GetInput (inputNameOf tag) = "" →
        (fieldStep rt action field).1 =
          if requiredOf tag then
            Step.stop (Outcome.returned (some (GoError.errorString
              ("no value for required input " ++ inputNameOf tag))))
          else Step.next field)) ∧
    (inputNameOf "x" = "x" ∧ requiredOf "x" = false) ∧
    (inputNameOf "x,required" = "x" ∧ requiredOf "x,required" = true) ∧
    (inputNameOf "x,required,required" = "x,required" ∧
      requiredOf "x,required,required" = true) ∧
    (inputNameOf "-,required" = "-" ∧
      ∀ (rt : Runtime) (action : Action) (field : Field),
        field.tag = some "-,required" → fieldStep rt action field = (Step.next field, [])) := by
  refine ⟨requiredOf_iff, inputNameOf_required, ?_, ?_, by decide, by decide, by decide,
    by decide, ?_⟩
  · intro tag hno
    apply inputNameOf_optional
    cases hr : requiredOf tag
    · rfl
    · exact absurd ((requiredOf_iff tag).1 hr) hno
  · intro rt action field tag hc ht hn
    by_cases hv : action.GetInput (inputNameOf tag) = ""
    · cases hr : requiredOf tag
      · rw [fieldStep_missing_optional rt action field tag hc ht hn hv hr]
        simp
      · rw [fieldStep_missing_required rt action field tag hc ht hn hv hr]
        simp
    · refine ⟨?_, fun h => absurd h hv⟩
      cases he : convert rt field.typ.str (action.GetInput (inputNameOf tag)) with
      | error err => rw [fieldStep_convert_error rt action field tag err hc ht hn hv he]; rfl
      | ok value =>
        cases ha : assignable rt value.typeOf field.typ
        · rw [fieldStep_set_panics rt action field tag value hc ht hn hv he ha]; rfl
        · rw [fieldStep_set rt action field tag value hc ht hn hv he ha]; rfl
  · intro rt action field ht
    exact fieldStep_ignored rt action field "-,required" ht (by decide)

/-! ## C18: fields that are not writable -/

/-- C18.  A field that is not writable is skipped before its tag is looked
at: for every destination and lookup, whatever its tag and its declared
type are, no call is made for it (no lookup, no `convert`, no `Set`), it is
after the call what it was before, and the call ends as it ends on the
struct without the field, with the other fields as they end there; so it
never causes an error. -/
theorem Unmarshal_skips_unwritable (rt : Runtime) (action : Action) (typ elem : RType)
    (pre post : List Field) (field : Field) (hc : field.canSet = false) :
    (fieldsOf (Unmarshal rt action
      (some ⟨typ, elem, some (pre ++ field :: post)⟩)).v)[pre.length]? = some field ∧
    (∀ e ∈ (Unmarshal rt action (some ⟨typ, elem, some (pre ++ field :: post)⟩)).trace,
      e.1 ≠ pre.length) ∧
    (Unmarshal rt action (some ⟨typ, elem, some (pre ++ field :: post)⟩)).outcome =
      (Unmarshal rt action (some ⟨typ, elem, some (pre ++ post)⟩)).outcome ∧
    fieldsOf (Unmarshal rt action (some ⟨typ, elem, some (pre ++ field :: post)⟩)).v =
      (fieldsOf (Unmarshal rt action (some ⟨typ, elem, some (pre ++ post)⟩)).v).take pre.length ++
        field :: (fieldsOf (Unmarshal rt action
          (some ⟨typ, elem, some (pre ++ post)⟩)).v).drop pre.length :=
  Unmarshal_skip_silent rt action typ elem pre post field
    (fieldStep_cannot_set rt action field hc)

/-- C18, witness: the unexported field `token` is tagged as required and its
input is unset, the unexported field `size` has the unsupported type `uint`
and its input is set; the call sets `Name` and returns nil, with calls for
`Name` only. -/
theorem Unmarshal_skips_unwritable_witness :
    (⟨"token", stringType, some "token,required", false, Value.string ""⟩ : Field).canSet =
      false ∧
    (fieldsOf (Unmarshal testRuntime (actionOf [("size", "7"), ("name", "x")])
      (pointerTo ([] ++ ⟨"token", stringType, some "token,required", false, Value.string ""⟩ ::
        [⟨"size", uintType, some "size", false, Value.other uintType "0"⟩,
          nameField]))).v)[0]? =
      some ⟨"token", stringType, some "token,required", false, Value.string ""⟩ ∧
    Unmarshal testRuntime (actionOf [("size", "7"), ("name", "x")])
      (pointerTo ([] ++ ⟨"token", stringType, some "token,required", false, Value.string ""⟩ ::
        [⟨"size", uintType, some "size", false, Value.other uintType "0"⟩, nameField])) =
      ⟨pointerTo [⟨"token", stringType, some "token,required", false, Value.string ""⟩,
          ⟨"size", uintType, some "size", false, Value.other uintType "0"⟩,
          { nameField with value := Value.string "x" }],
        Outcome.returned none,
        [(2, Call.GetInput "name"), (2, Call.convert "string" "x"),
          (2, Call.Set (Value.string "x"))]⟩ :=
  ⟨rfl,
    (Unmarshal_skips_unwritable testRuntime (actionOf [("size", "7"), ("name", "x")]) _ _ []
      [⟨"size", uintType, some "size", false, Value.other uintType "0"⟩, nameField]
      ⟨"token", stringType, some "token,required", false, Value.string ""⟩ rfl).1,
    by decide⟩

/-! ## C16: declaration order, first failure -/

/-- The calls of the loop are made in the order of the fields. -/
theorem fieldLoop_trace_sorted (rt : Runtime) (action : Action) (fields : List Field) :
    ∀ index, List.Pairwise (fun a b : Event => a.1 ≤ b.1)
      (fieldLoop rt action index fields).trace := by
  induction fields with
  | nil => intro index; simp [fieldLoop]
  | cons field rest ih =>
    intro index
    rcases fieldStep_next_or_stop rt action field with ⟨f1, calls, h⟩ | ⟨o, calls, h⟩
    · rw [fieldLoop_cons_next rt action index field f1 rest calls h]
      rw [List.pairwise_append]
      refine ⟨?_, ih (index + 1), ?_⟩
      · rw [List.pairwise_map]
        exact List.pairwise_of_forall (fun _ _ => Nat.le_refl index)
      · intro a ha b hb
        simp only [List.mem_map] at ha
        obtain ⟨c, _, rfl⟩ := ha
        have := fieldLoop_trace_index rt action rest (index + 1) b hb
        simp only
        omega
    · rw [fieldLoop_cons_stop rt action index field rest o calls h]
      rw [List.pairwise_map]
      exact List.pairwise_of_forall (fun _ _ => Nat.le_refl index)

/-- A loop that ends with an error walks through the fields before some
field and stops in the iteration of that field. -/
theorem fieldLoop_error_split (rt : Runtime) (action : Action) (fields : List Field)
    (err : GoError) :
    ∀ index, (fieldLoop rt action index fields).outcome = Outcome.returned (some err) →
      ∃ pre field post calls, fields = pre ++ field :: post ∧
        (fieldLoop rt action index pre).outcome = Outcome.returned none ∧
        fieldStep rt action field = (Step.stop (Outcome.returned (some err)), calls) := by
  induction fields with
  | nil => intro index h; simp [fieldLoop] at h
  | cons field rest ih =>
    intro index hout
    rcases fieldStep_next_or_stop rt action field with ⟨f1, calls, h⟩ | ⟨o, calls, h⟩
    · rw [fieldLoop_cons_next rt action index field f1 rest calls h] at hout
      obtain ⟨pre, g, post, calls1, hsplit, hpre, hstep⟩ := ih (index + 1) hout
      refine ⟨field :: pre, g, post, calls1, by rw [hsplit]; rfl, ?_, hstep⟩
      rw [fieldLoop_cons_next rt action index field f1 pre calls h]
      exact hpre
    · rw [fieldLoop_cons_stop rt action index field rest o calls h] at hout
      simp only at hout
      subst hout
      exact ⟨[], field, rest, calls, rfl, by simp [fieldLoop], h⟩

/-- An iteration that returns an error is the iteration of a field whose
processing fails. -/
theorem fails_of_fieldStep (rt : Runtime) (action : Action) (field : Field)
    (err : GoError) (calls : List Call)
    (h : fieldStep rt action field = (Step.stop (Outcome.returned (some err)), calls)) :
    Fails rt action field := by
  rcases stepCase rt action field with hc | ⟨hc, ht⟩ | ⟨tag, hc, ht, hn⟩ |
    ⟨tag, hc, ht, hn, hv, hr⟩ | ⟨tag, hc, ht, hn, hv, hr⟩ | ⟨tag, e, hc, ht, hn, hv, he⟩ |
    ⟨tag, value, hc, ht, hn, hv, he, ha⟩ | ⟨tag, value, hc, ht, hn, hv, he, ha⟩
  · rw [fieldStep_cannot_set rt action field hc] at h; simp at h
  · rw [fieldStep_no_tag rt action field ht] at h; simp at h
  · rw [fieldStep_ignored rt action field tag ht hn] at h; simp at h
  · exact ⟨hc, by simp only [ht]; exact ⟨hn, Or.inl ⟨hv, hr⟩⟩⟩
  · rw [fieldStep_missing_optional rt action field tag hc ht hn hv hr] at h; simp at h
  · exact ⟨hc, by simp only [ht]; exact ⟨hn, Or.inr ⟨hv, by rw [he]; rfl⟩⟩⟩
  · rw [fieldStep_set rt action field tag value hc ht hn hv he ha] at h; simp at h
  · rw [fieldStep_set_panics rt action field tag value hc ht hn hv he ha] at h; simp at h

/-- An iteration that goes on has skipped the field, leaving it as it was,
or has assigned it the value `convert` returned. -/
theorem fieldStep_next_cases (rt : Runtime) (action : Action) (field field1 : Field)
    (h : (fieldStep rt action field).1 = Step.next field1) :
    ¬ Fails rt action field ∧
      (field1 = field ∨
        ∃ value, Convertible rt action field value ∧ field1 = { field with value := value }) := by
  constructor
  · intro hfail
    obtain ⟨err, calls, hstop⟩ := fieldStep_of_fails rt action field hfail
    rw [hstop] at h
    simp at h
  · rcases stepCase rt action field with hc | ⟨hc, ht⟩ | ⟨tag, hc, ht, hn⟩ |
      ⟨tag, hc, ht, hn, hv, hr⟩ | ⟨tag, hc, ht, hn, hv, hr⟩ | ⟨tag, e, hc, ht, hn, hv, he⟩ |
      ⟨tag, value, hc, ht, hn, hv, he, ha⟩ | ⟨tag, value, hc, ht, hn, hv, he, ha⟩
    · rw [fieldStep_cannot_set rt action field hc] at h
      simp at h; exact Or.inl h.symm
    · rw [fieldStep_no_tag rt action field ht] at h
      simp at h; exact Or.inl h.symm
    · rw [fieldStep_ignored rt action field tag ht hn] at h
      simp at h; exact Or.inl h.symm
    · rw [fieldStep_missing_required rt action field tag hc ht hn hv hr] at h; simp at h
    · rw [fieldStep_missing_optional rt action field tag hc ht hn hv hr] at h
      simp at h; exact Or.inl h.symm
    · rw [fieldStep_convert_error rt action field tag e hc ht hn hv he] at h; simp at h
    · have hconv : Convertible rt action field value :=
        ⟨hc, by simp only [ht]; exact ⟨hn, hv, he⟩⟩
      exact Or.inr ⟨value, hconv,
        fieldStep_next_of_convertible rt action field field1 value hconv h⟩
    · rw [fieldStep_set_panics rt action field tag value hc ht hn hv he ha] at h; simp at h

/-- When the loop walks through all the fields, processing of none of them
fails. -/
theorem fieldLoop_done_not_fails (rt : Runtime) (action : Action) (fields : List Field) :
    ∀ index, (fieldLoop rt action index fields).outcome = Outcome.returned none →
      ∀ field ∈ fields, ¬ Fails rt action field := by
  induction fields with
  | nil => intro index _ field hmem; simp at hmem
  | cons head rest ih =>
    intro index hdone field hmem
    rcases fieldStep_next_or_stop rt action head with ⟨f1, calls, h⟩ | ⟨o, calls, h⟩
    · rw [fieldLoop_cons_next rt action index head f1 rest calls h] at hdone
      rcases List.mem_cons.1 hmem with rfl | hrest
      · exact (fieldStep_next_cases rt action field f1 (by rw [h])).1
      · exact ih (index + 1) hdone field hrest
    · rw [fieldLoop_cons_stop rt action index head rest o calls h] at hdone
      exact absurd hdone (fieldStep_stop_ne rt action head o calls h)

/-- C16.  Fields are processed in declaration order and the first failure
wins.  Whenever `Unmarshal` returns an error on a valid destination, the
struct splits into the fields before a field, the field, and the fields
after it, such that: processing of the field fails (required input
missing, or conversion failure) and the error returned is the error of its
iteration; processing of no field before it fails, and each of them was
skipped (left as it was) or assigned the value `convert` returned for it;
no call, so no lookup, is made for a field after it; the field and those
after it are as before.  The calls are made in the order of the fields. -/
theorem Unmarshal_first_failure (rt : Runtime) (action : Action) (typ elem : RType)
    (fields : List Field) (err : GoError)
    (hvalid : validType (some ⟨typ, elem, some fields⟩) = none)
    (herr : (Unmarshal rt action (some ⟨typ, elem, some fields⟩)).outcome =
      Outcome.returned (some err)) :
    (∃ pre field post, fields = pre ++ field :: post ∧
      Fails rt action field ∧
      (fieldStep rt action field).1 = Step.stop (Outcome.returned (some err)) ∧
      (∀ before ∈ pre, ¬ Fails rt action before) ∧
      List.Forall₂ (fun before after => after = before ∨
          ∃ value, Convertible rt action before value ∧
            after = { before with value := value })
        pre ((fieldsOf (Unmarshal rt action (some ⟨typ, elem, some fields⟩)).v).take
          pre.length) ∧
      (fieldsOf (Unmarshal rt action (some ⟨typ, elem, some fields⟩)).v).drop pre.length =
        field :: post ∧
      ∀ e ∈ (Unmarshal rt action (some ⟨typ, elem, some fields⟩)).trace, e.1 ≤ pre.length) ∧
    List.Pairwise (fun a b : Event => a.1 ≤ b.1)
      (Unmarshal rt action (some ⟨typ, elem, some fields⟩)).trace := by
  rw [Unmarshal_valid rt action typ elem fields hvalid] at herr ⊢
  refine ⟨?_, fieldLoop_trace_sorted rt action fields 0⟩
  obtain ⟨pre, field, post, calls, hsplit, hpre, hstep⟩ :=
    fieldLoop_error_split rt action fields err 0 herr
  subst hsplit
  have hlen := fieldLoop_length rt action pre 0
  have hdone := fieldLoop_done rt action pre 0 hpre
  refine ⟨pre, field, post, rfl, fails_of_fieldStep rt action field err calls hstep,
    by rw [hstep], ?_, ?_, ?_, ?_⟩
  · exact fieldLoop_done_not_fails rt action pre 0 hpre
  · rw [fieldLoop_stop_at rt action pre post field _ calls hpre hstep]
    simp only [fieldsOf, Option.getD_some]
    rw [List.take_left' hlen]
    exact List.Forall₂.imp
      (fun before after h => (fieldStep_next_cases rt action before after h).2) hdone
  · rw [fieldLoop_stop_at rt action pre post field _ calls hpre hstep]
    simp only [fieldsOf, Option.getD_some]
    rw [List.drop_left' hlen]
  · rw [fieldLoop_stop_at rt action pre post field _ calls hpre hstep]
    intro e he
    simp only [List.mem_append, List.mem_map] at he
    rcases he with he | ⟨c, _, rfl⟩
    · have := fieldLoop_trace_index rt action pre 0 e he
      omega
    · exact Nat.le_refl _

/-- C16, witness: `Name` is set, `Count` fails on "zz", and `Level`, which
would fail on "yy", is not looked up. -/
theorem Unmarshal_first_failure_witness :
    validType (pointerTo [nameField, countField, levelField]) = none ∧
    (Unmarshal testRuntime (actionOf [("name", "x"), ("count", "zz"), ("level", "yy")])
      (pointerTo [nameField, countField, levelField])).outcome =
      Outcome.returned (some (GoError.wrapError
        "field Count: strconv.Atoi: parsing \"zz\": invalid syntax"
        (numError "Atoi" "zz" "invalid syntax"))) ∧
    List.Pairwise (fun a b : Event => a.1 ≤ b.1)
      (Unmarshal testRuntime (actionOf [("name", "x"), ("count", "zz"), ("level", "yy")])
        (pointerTo [nameField, countField, levelField])).trace ∧
    Unmarshal testRuntime (actionOf [("name", "x"), ("count", "zz"), ("level", "yy")])
        (pointerTo [nameField, countField, levelField]) =
      ⟨pointerTo [{ nameField with value := Value.string "x" }, countField, levelField],
        Outcome.returned (some (GoError.wrapError
          "field Count: strconv.Atoi: parsing \"zz\": invalid syntax"
          (numError "Atoi" "zz" "invalid syntax"))),
        [(0, Call.GetInput "name"), (0, Call.convert "string" "x"),
          (0, Call.Set (Value.string "x")), (1, Call.GetInput "count"),
          (1, Call.convert "int" "zz")]⟩ :=
  ⟨by decide, by decide,
    (Unmarshal_first_failure testRuntime
      (actionOf [("name", "x"), ("count", "zz"), ("level", "yy")]) _ _
      [nameField, countField, levelField]
      (GoError.wrapError "field Count: strconv.Atoi: parsing \"zz\": invalid syntax"
        (numError "Atoi" "zz" "invalid syntax")) (by decide) (by decide)).2,
    by decide⟩

/-! ## C11: unsupported type tokens -/

/-- For a supported token, an error of `convert` is the error of a parser of
the standard library. -/
theorem convert_error_of_supported (rt : Runtime) (kind value : String) (e : GoError)
    (hk : kind ∈ supportedTypes) (he : convert rt kind value = Except.error e) :
    rt.parserError value e := by
  simp only [supportedTypes, List.mem_cons, List.mem_singleton, List.not_mem_nil,
    or_false] at hk
  unfold Runtime.parserError
  rcases hk with rfl | rfl | rfl | rfl | rfl | rfl | rfl | rfl | rfl
  · cases h : rt.ParseBool value with
    | error err => simp [convert, h, Except.map] at he; exact Or.inl (by rw [he])
    | ok b => simp [convert, h, Except.map] at he
  · cases h : rt.ParseFloat value 32 with
    | error err => simp [convert, h] at he; exact Or.inr (Or.inl (by rw [he]))
    | ok b => simp [convert, h] at he
  · cases h : rt.ParseFloat value 64 with
    | error err => simp [convert, h, Except.map] at he; exact Or.inr (Or.inr (Or.inl (by rw [he])))
    | ok b => simp [convert, h, Except.map] at he
  · cases h : rt.Atoi value with
    | error err =>
      simp [convert, h, Except.map] at he
      exact Or.inr (Or.inr (Or.inr (Or.inl (by rw [he]))))
    | ok b => simp [convert, h, Except.map] at he
  · simp [convert] at he
  · cases h : rt.ParseDuration value with
    | error err =>
      simp [convert, h, Except.map] at he
      exact Or.inr (Or.inr (Or.inr (Or.inr (Or.inl (by rw [he])))))
    | ok b => simp [convert, h, Except.map] at he
  · cases h : rt.ParseRFC3339 value with
    | error err =>
      simp [convert, h, Except.map] at he
      exact Or.inr (Or.inr (Or.inr (Or.inr (Or.inr (by rw [he])))))
    | ok b => simp [convert, h, Except.map] at he
  · simp [convert] at he
  · simp [convert] at he

/-- C11.  For a runtime whose parsers never return an "unsupported type"
error (as those of `strconv` and `time` never do): for every token that is
not one of "bool", "float32", "float64", "int", "string", "time.Duration",
"time.Time", "[]string", "[]uint8" and every raw value, `convert` fails with
the error "unsupported type " followed by the token; and for a token of
that set, an error of `convert` is the error of the parser of the standard
library and is not an "unsupported type" error. -/
theorem convert_unsupported_type (rt : Runtime)
    (hrt : ∀ value e, rt.parserError value e → ¬ UnsupportedTypeError e)
    (kind value : String) :
    (kind ∉ supportedTypes →
      convert rt kind value = Except.error (GoError.errorString ("unsupported type " ++ kind)) ∧
      ∀ e, convert rt kind value = Except.error e → UnsupportedTypeError e) ∧
    (kind ∈ supportedTypes →
      ∀ e, convert rt kind value = Except.error e →
        rt.parserError value e ∧ ¬ UnsupportedTypeError e) := by
  constructor
  · intro hk
    have h := convert_unsupported rt kind value hk
    refine ⟨h, ?_⟩
    intro e he
    rw [h] at he
    simp only [Except.error.injEq] at he
    subst he
    exact ⟨kind, rfl⟩
  · intro hk e he
    have hp := convert_error_of_supported rt kind value e hk he
    exact ⟨hp, hrt value e hp⟩

/-- The message of a `strconv.NumError` is not an "unsupported type"
message. -/
theorem numError_not_unsupported (fn num cause : String) :
    ¬ UnsupportedTypeError (numError fn num cause) := by
  rintro ⟨token, h⟩
  have hdata := congrArg String.data h
  simp [numError, GoError.Error, String.data_append] at hdata

/-- An error of the model of `strconv.Atoi` is a `strconv.NumError`. -/
theorem atoi_error (s : String) (e : GoError) (h : atoi s = Except.error e) :
    ∃ cause, e = numError "Atoi" s cause := by
  unfold atoi at h
  split at h
  simp only at h
  split_ifs at h <;> (simp only [Except.error.injEq] at h; exact ⟨_, h.symm⟩)

/-- The parsers of the runtime of the examples never return an "unsupported
type" error. -/
theorem testRuntime_parserError (value : String) (e : GoError)
    (h : testRuntime.parserError value e) : ¬ UnsupportedTypeError e := by
  rcases h with h | h | h | h | h | h
  · simp only [testRuntime, parseBool] at h
    split_ifs at h
    simp only [Except.error.injEq] at h
    subst h
    exact numError_not_unsupported _ _ _
  · simp only [testRuntime] at h
    split_ifs at h
    simp only [Except.error.injEq] at h
    subst h
    exact numError_not_unsupported _ _ _
  · simp only [testRuntime] at h
    split_ifs at h
    simp only [Except.error.injEq] at h
    subst h
    exact numError_not_unsupported _ _ _
  · obtain ⟨cause, rfl⟩ := atoi_error value e h
    exact numError_not_unsupported _ _ _
  · simp only [testRuntime] at h
    split_ifs at h
    simp only [Except.error.injEq] at h
    subst h
    rintro ⟨token, hm⟩
    have hdata := congrArg String.data hm
    simp [GoError.Error, String.data_append] at hdata
  · simp only [testRuntime] at h
    split_ifs at h
    simp only [Except.error.injEq] at h
    subst h
    rintro ⟨token, hm⟩
    have hdata := congrArg String.data hm
    simp [GoError.Error, String.data_append] at hdata

/-- C11, witness: with the runtime of the examples, the token "uint" is
rejected as unsupported and the error of the token "int" on "zz" is the
error of `strconv.Atoi`. -/
theorem convert_unsupported_type_witness :
    (∀ value e, testRuntime.parserError value e → ¬ UnsupportedTypeError e) ∧
    convert testRuntime "uint" "7" =
      Except.error (GoError.errorString ("unsupported type " ++ "uint")) ∧
    convert testRuntime "int" "zz" = Except.error (numError "Atoi" "zz" "invalid syntax") ∧
    ¬ UnsupportedTypeError (numError "Atoi" "zz" "invalid syntax") :=
  ⟨testRuntime_parserError,
    ((convert_unsupported_type testRuntime testRuntime_parserError "uint" "7").1
      (by decide)).1,
    by decide,
    ((convert_unsupported_type testRuntime testRuntime_parserError "int" "zz").2
      (by decide) _ (by decide)).2⟩

/-! ## C13: the type of the converted value -/

/-- The type of the value `convert` returns is the type its token names. -/
theorem convert_typeOf (rt : Runtime) (kind value : String) (v : Value)
    (h : convert rt kind value = Except.ok v) :
    typeNamed kind = some v.typeOf ∧ v.typeOf.str = kind := by
  by_cases hk : kind ∈ supportedTypes
  · simp only [supportedTypes, List.mem_cons, List.mem_singleton, List.not_mem_nil,
      or_false] at hk
    rcases hk with rfl | rfl | rfl | rfl | rfl | rfl | rfl | rfl | rfl
    · cases hp : rt.ParseBool value with
      | error err => simp [convert, hp, Except.map] at h
      | ok b => simp [convert, hp, Except.map] at h; subst h; exact ⟨by simp [typeNamed, Value.typeOf], rfl⟩
    · cases hp : rt.ParseFloat value 32 with
      | error err => simp [convert, hp] at h
      | ok b => simp [convert, hp] at h; subst h; exact ⟨by simp [typeNamed, Value.typeOf], rfl⟩
    · cases hp : rt.ParseFloat value 64 with
      | error err => simp [convert, hp, Except.map] at h
      | ok b => simp [convert, hp, Except.map] at h; subst h; exact ⟨by simp [typeNamed, Value.typeOf], rfl⟩
    · cases hp : rt.Atoi value with
      | error err => simp [convert, hp, Except.map] at h
      | ok b => simp [convert, hp, Except.map] at h; subst h; exact ⟨by simp [typeNamed, Value.typeOf], rfl⟩
    · simp [convert] at h; subst h; exact ⟨by simp [typeNamed, Value.typeOf], rfl⟩
    · cases hp : rt.ParseDuration value with
      | error err => simp [convert, hp, Except.map] at h
      | ok b => simp [convert, hp, Except.map] at h; subst h; exact ⟨by simp [typeNamed, Value.typeOf], rfl⟩
    · cases hp : rt.ParseRFC3339 value with
      | error err => simp [convert, hp, Except.map] at h
      | ok b => simp [convert, hp, Except.map] at h; subst h; exact ⟨by simp [typeNamed, Value.typeOf], rfl⟩
    · simp [convert] at h; subst h; exact ⟨by simp [typeNamed, Value.typeOf], rfl⟩
    · simp [convert] at h; subst h; exact ⟨by simp [typeNamed, Value.typeOf], rfl⟩
  · rw [convert_unsupported rt kind value hk] at h
    simp at h

/-- Where the assignment succeeds.  For every token and raw value on which
`convert` succeeds, the runtime type of the returned value is the type the
token names, and that type prints as the token; the assignment `Unmarshal`
performs into a bindable field whose declared type is that type is
type-correct: the iteration sets the field and goes on. -/
theorem convert_runtime_type (rt : Runtime) (kind value : String) (v : Value)
    (h : convert rt kind value = Except.ok v) :
    typeNamed kind = some v.typeOf ∧ v.typeOf.str = kind ∧
    ∀ (action : Action) (field : Field) (tag : String),
      field.canSet = true → field.tag = some tag → inputNameOf tag ≠ "-" →
      action.GetInput (inputNameOf tag) = value → value ≠ "" →
      typeNamed kind = some field.typ →
      fieldStep rt action field =
        (Step.next { field with value := v },
          [Call.GetInput (inputNameOf tag), Call.convert kind value, Call.Set v]) := by
  obtain ⟨htype, hstr⟩ := convert_typeOf rt kind value v h
  refine ⟨htype, hstr, ?_⟩
  intro action field tag hc ht hn hget hne hfield
  have htyp : field.typ = v.typeOf := by
    rw [htype] at hfield
    exact (Option.some.inj hfield).symm
  have hkind : field.typ.str = kind := by rw [htyp]; exact hstr
  have he : convert rt field.typ.str (action.GetInput (inputNameOf tag)) = Except.ok v := by
    rw [hkind, hget]; exact h
  have ha : assignable rt v.typeOf field.typ = true := by
    simp [assignable, htyp]
  rw [fieldStep_set rt action field tag v hc ht hn (by rw [hget]; exact hne) he ha,
    hkind, hget]

/-- The type of the value converted for the field `Time` of
`TestUnmarshal`. -/
theorem convert_runtime_type_witness :
    convert testRuntime "time.Time" "2006-01-02T15:04:05Z" =
      Except.ok (Value.time ⟨2006, 1, 2, 15, 4, 5, 0, 0⟩) ∧
    typeNamed "time.Time" = some (Value.time ⟨2006, 1, 2, 15, 4, 5, 0, 0⟩).typeOf ∧
    (Value.time ⟨2006, 1, 2, 15, 4, 5, 0, 0⟩).typeOf.str = "time.Time" :=
  ⟨by decide,
    (convert_runtime_type testRuntime "time.Time" "2006-01-02T15:04:05Z"
      (Value.time ⟨2006, 1, 2, 15, 4, 5, 0, 0⟩) (by decide)).1,
    (convert_runtime_type testRuntime "time.Time" "2006-01-02T15:04:05Z"
      (Value.time ⟨2006, 1, 2, 15, 4, 5, 0, 0⟩) (by decide)).2.1⟩

/-- C13, code bug.  The declared type of the field prints as the token
"time.Time" and `convert` succeeds on ("time.Time", "2006-01-02T15:04:05Z"),
so the assignment should be type-correct; instead it fails: the field has a
type of another package named `time`, the value is a `time.Time` of the
standard library, its runtime type is not the declared type of the field,
and `Set` panics.  The sibling path shows what the code does for a type it
cannot convert to: the same field with a type that prints as `clock.Time`
makes `Unmarshal` return the error "field Started: unsupported type
clock.Time". -/
theorem Unmarshal_foreign_time_panics :
    (Unmarshal testRuntime testAction (pointerTo clockTime)).outcome =
      Outcome.returned (some (GoError.wrapError
        "field Started: unsupported type clock.Time"
        (GoError.errorString "unsupported type clock.Time"))) ∧
    (foreignTime.map (fun field => field.typ.str)) = ["time.Time"] ∧
    (foreignTime.map (fun field => decide (field.typ =
      (Value.time ⟨2006, 1, 2, 15, 4, 5, 0, 0⟩).typeOf))) = [false] ∧
    convert testRuntime "time.Time" (testAction.GetInput "time") =
      Except.ok (Value.time ⟨2006, 1, 2, 15, 4, 5, 0, 0⟩) ∧
    (Value.time ⟨2006, 1, 2, 15, 4, 5, 0, 0⟩).typeOf.str = "time.Time" ∧
    Unmarshal testRuntime testAction (pointerTo foreignTime) =
      ⟨pointerTo foreignTime,
        Outcome.panicked
          "reflect.Set: value of type time.Time is not assignable to type time.Time",
        [(0, Call.GetInput "time"), (0, Call.convert "time.Time" "2006-01-02T15:04:05Z"),
          (0, Call.Set (Value.time ⟨2006, 1, 2, 15, 4, 5, 0, 0⟩))]⟩ := by
  decide

/-! ## C19: the elements of split -/

theorem split_eq_splitRunes (value : String) :
    split value = (splitRunes value.data).map String.mk := rfl

/-- The fields of `FieldsFunc` contain no rune that satisfies `f`. -/
theorem fieldsFuncLoop_no_separator (f : Char → Bool) (s : List Char) :
    ∀ start : Option (List Char), (∀ cur, start = some cur → ∀ r ∈ cur, f r = false) →
      ∀ piece ∈ fieldsFuncLoop f s start, ∀ r ∈ piece, f r = false := by
  induction s with
  | nil =>
    intro start hstart piece hmem
    cases start with
    | none => simp [fieldsFuncLoop] at hmem
    | some cur =>
      simp only [fieldsFuncLoop, List.mem_singleton] at hmem
      rw [hmem]
      exact hstart cur rfl
  | cons r rest ih =>
    intro start hstart piece hmem
    by_cases hf : f r = true
    · cases start with
      | none =>
        simp only [fieldsFuncLoop, hf, if_true] at hmem
        exact ih none (by simp) piece hmem
      | some cur =>
        simp only [fieldsFuncLoop, hf, if_true, List.mem_cons] at hmem
        rcases hmem with rfl | hmem
        · exact hstart piece rfl
        · exact ih none (by simp) piece hmem
    · have hfr : f r = false := by simpa using hf
      cases start with
      | none =>
        simp only [fieldsFuncLoop, hf, if_false] at hmem
        refine ih (some [r]) ?_ piece hmem
        intro cur hcur x hx
        simp only [Option.some.injEq] at hcur
        subst hcur
        simp only [List.mem_singleton] at hx
        subst hx
        exact hfr
      | some cur =>
        simp only [fieldsFuncLoop, hf, if_false] at hmem
        refine ih (some (cur ++ [r])) ?_ piece hmem
        intro cur1 hcur x hx
        simp only [Option.some.injEq] at hcur
        subst hcur
        simp only [List.mem_append, List.mem_singleton] at hx
        rcases hx with hx | rfl
        · exact hstart cur rfl x hx
        · exact hfr

/-- The runes of a trimmed text are runes of the text. -/
theorem trimSpace_subset (s : List Char) : ∀ r ∈ trimSpace s, r ∈ s := by
  intro r hr
  have h1 : trimSpace s <+: s.dropWhile isSpace :=
    List.rdropWhile_prefix isSpace (s.dropWhile isSpace)
  exact (List.dropWhile_suffix isSpace).subset (h1.subset hr)

/-- A trimmed text does not start with white space. -/
theorem trimSpace_head (s : List Char) :
    ∀ r, (trimSpace s).head? = some r → isSpace r = false := by
  intro r hr
  have hne : trimSpace s ≠ [] := by
    intro h; rw [h] at hr; simp at hr
  have h1 : trimSpace s <+: s.dropWhile isSpace :=
    List.rdropWhile_prefix isSpace (s.dropWhile isSpace)
  have hne2 : s.dropWhile isSpace ≠ [] := by
    intro h; rw [h] at h1; exact hne (List.prefix_nil.1 h1)
  have hhead := h1.head hne
  have hnot := List.head_dropWhile_not isSpace s hne2
  rw [List.head?_eq_head hne, Option.some.injEq] at hr
  rw [← hr, hhead]
  exact hnot

/-- A trimmed text does not end with white space. -/
theorem trimSpace_getLast (s : List Char) :
    ∀ r, (trimSpace s).getLast? = some r → isSpace r = false := by
  intro r hr
  have hne : trimSpace s ≠ [] := by
    intro h; rw [h] at hr; simp at hr
  have hlast := List.rdropWhile_last_not (p := isSpace) (l := s.dropWhile isSpace) hne
  rw [List.getLast?_eq_getLast _ hne, Option.some.injEq] at hr
  rw [← hr]
  simpa using hlast

/-- Every field of `split` is clean. -/
theorem splitRunes_clean (value : List Char) : ∀ piece ∈ splitRunes value, Clean piece := by
  intro piece hmem
  simp only [splitRunes, List.mem_filter, List.mem_map, decide_eq_true_eq] at hmem
  obtain ⟨⟨field, hfield, rfl⟩, hne⟩ := hmem
  refine ⟨hne, trimSpace_head field, trimSpace_getLast field, ?_⟩
  intro r hr
  exact fieldsFuncLoop_no_separator isSeparator value none (by simp) field hfield r
    (trimSpace_subset field r hr)

/-- C19.  For every text, every element of the result of `split` is not
empty, neither starts nor ends with white space, and contains neither a
comma nor a newline. -/
theorem split_elements (value : String) :
    ∀ field ∈ split value,
      field ≠ "" ∧
      (∀ r, field.data.head? = some r → isSpace r = false) ∧
      (∀ r, field.data.getLast? = some r → isSpace r = false) ∧
      ',' ∉ field.data ∧ '\n' ∉ field.data := by
  intro field hmem
  rw [split_eq_splitRunes, List.mem_map] at hmem
  obtain ⟨piece, hpiece, rfl⟩ := hmem
  obtain ⟨hne, hhead, hlast, hsep⟩ := splitRunes_clean value.data piece hpiece
  refine ⟨?_, hhead, hlast, ?_, ?_⟩
  · intro h
    exact hne (congrArg String.data h)
  · intro h
    have := hsep ',' h
    simp [isSeparator] at this
  · intro h
    have := hsep '\n' h
    simp [isSeparator] at this

/-- C19, witness: the element "b c" of the fields of " a ,, b c ,\n". -/
theorem split_elements_witness :
    "b c" ∈ split " a ,, b c ,\n" ∧
    ("b c" ≠ "" ∧
      (∀ r, ("b c" : String).data.head? = some r → isSpace r = false) ∧
      (∀ r, ("b c" : String).data.getLast? = some r → isSpace r = false) ∧
      ',' ∉ ("b c" : String).data ∧ '\n' ∉ ("b c" : String).data) :=
  ⟨by decide, split_elements " a ,, b c ,\n" "b c" (by decide)⟩

/-! ## C20: splitting what was joined -/

/-- The loop of `FieldsFunc` reads a run of runes that are no separators into
the field being read. -/
theorem fieldsFuncLoop_run (f : Char → Bool) (piece rest : List Char)
    (hpiece : ∀ r ∈ piece, f r = false) :
    ∀ cur, fieldsFuncLoop f (piece ++ rest) (some cur) =
      fieldsFuncLoop f rest (some (cur ++ piece)) := by
  induction piece with
  | nil => intro cur; simp
  | cons r piece ih =>
    intro cur
    have hr : f r = false := hpiece r (List.mem_cons_self r piece)
    have hrest : ∀ x ∈ piece, f x = false :=
      fun x hx => hpiece x (List.mem_cons_of_mem r hx)
    rw [List.cons_append, fieldsFuncLoop]
    simp only [hr, Bool.false_eq_true, if_false]
    rw [ih hrest (cur ++ [r])]
    simp

/-- The same at the start of a field. -/
theorem fieldsFuncLoop_run_start (f : Char → Bool) (piece rest : List Char)
    (hne : piece ≠ []) (hpiece : ∀ r ∈ piece, f r = false) :
    fieldsFuncLoop f (piece ++ rest) none = fieldsFuncLoop f rest (some piece) := by
  cases piece with
  | nil => exact absurd rfl hne
  | cons r piece =>
    have hr : f r = false := hpiece r (List.mem_cons_self r piece)
    have hrest : ∀ x ∈ piece, f x = false :=
      fun x hx => hpiece x (List.mem_cons_of_mem r hx)
    rw [List.cons_append, fieldsFuncLoop]
    simp only [hr, Bool.false_eq_true, if_false]
    rw [fieldsFuncLoop_run f piece rest hrest [r]]
    simp

/-- Cutting pieces joined by a separator gives the pieces back, when the
pieces are not empty and contain no separator. -/
theorem fieldsFunc_intercalate (f : Char → Bool) (d : Char) (hd : f d = true)
    (pieces : List (List Char))
    (hpieces : ∀ piece ∈ pieces, piece ≠ [] ∧ ∀ r ∈ piece, f r = false) :
    fieldsFunc (List.intercalate [d] pieces) f = pieces := by
  unfold fieldsFunc List.intercalate
  induction pieces with
  | nil => simp [fieldsFuncLoop]
  | cons piece rest ih =>
    obtain ⟨hne, hno⟩ := hpieces piece (List.mem_cons_self piece rest)
    have hrest : ∀ p ∈ rest, p ≠ [] ∧ ∀ r ∈ p, f r = false :=
      fun p hp => hpieces p (List.mem_cons_of_mem piece hp)
    cases rest with
    | nil =>
      simp only [List.intersperse_single, List.flatten_cons, List.flatten_nil]
      rw [fieldsFuncLoop_run_start f piece [] hne hno]
      simp [fieldsFuncLoop]
    | cons next rest =>
      simp only [List.intersperse_cons₂, List.flatten_cons, List.singleton_append]
      rw [fieldsFuncLoop_run_start f piece _ hne hno, fieldsFuncLoop]
      simp only [hd, if_true]
      rw [ih hrest]

/-- Trimming a clean piece changes nothing. -/
theorem trimSpace_clean (piece : List Char) (h : Clean piece) : trimSpace piece = piece := by
  obtain ⟨hne, hhead, hlast, _⟩ := h
  have h1 : piece.dropWhile isSpace = piece := by
    rw [List.dropWhile_eq_self_iff]
    intro hl
    have := hhead (piece.get ⟨0, hl⟩) (by
      rw [List.head?_eq_getElem?, List.getElem?_eq_getElem hl]; rfl)
    simpa using this
  have h2 : List.rdropWhile isSpace piece = piece := by
    rw [List.rdropWhile_eq_self_iff]
    intro hl
    have := hlast (piece.getLast hl) (List.getLast?_eq_getLast _ hl)
    simp [this]
  unfold trimSpace
  rw [h1]
  exact h2

/-- Splitting clean pieces joined by a separator gives the pieces back. -/
theorem splitRunes_intercalate (d : Char) (hd : isSeparator d = true)
    (pieces : List (List Char)) (hclean : ∀ piece ∈ pieces, Clean piece) :
    splitRunes (List.intercalate [d] pieces) = pieces := by
  unfold splitRunes
  rw [fieldsFunc_intercalate isSeparator d hd pieces
    (fun piece hp => ⟨(hclean piece hp).1, (hclean piece hp).2.2.2⟩)]
  have hmap : pieces.map trimSpace = pieces := by
    conv_rhs => rw [← List.map_id pieces]
    exact List.map_congr_left (fun piece hp => trimSpace_clean piece (hclean piece hp))
  rw [hmap, List.filter_eq_self]
  intro piece hp
  simpa using (hclean piece hp).1

/-- C20.  For every text x, joining `split x` with "," or with "\n" and
splitting again returns `split x`. -/
theorem split_join_split (x : String) :
    split (join (split x) ",") = split x ∧ split (join (split x) "\n") = split x := by
  have hdata : (split x).map String.data = splitRunes x.data := by
    rw [split_eq_splitRunes, List.map_map]
    conv_rhs => rw [← List.map_id (splitRunes x.data)]
    exact List.map_congr_left (fun _ _ => rfl)
  have hcomma : (join (split x) ",").data = List.intercalate [','] (splitRunes x.data) := by
    unfold join
    rw [hdata]
  have hline : (join (split x) "\n").data = List.intercalate ['\n'] (splitRunes x.data) := by
    unfold join
    rw [hdata]
  constructor
  · rw [split_eq_splitRunes (join (split x) ","), hcomma, split_eq_splitRunes x]
    exact congrArg (List.map String.mk)
      (splitRunes_intercalate ',' (by decide) _ (splitRunes_clean x.data))
  · rw [split_eq_splitRunes (join (split x) "\n"), hline, split_eq_splitRunes x]
    exact congrArg (List.map String.mk)
      (splitRunes_intercalate '\n' (by decide) _ (splitRunes_clean x.data))

/-! ## C12: strings and byte sequences -/

theorem shiftRight_toNat_6 (v : UInt32) : (v >>> 6).toNat = v.toNat / 64 := by
  show (v.toBitVec >>> (UInt32.mod 6 32).toBitVec).toNat = _
  have h : (UInt32.mod 6 32).toBitVec = 6#32 := by decide
  rw [h]
  show (v.toBitVec >>> (6#32).toNat).toNat = _
  rw [BitVec.toNat_ushiftRight]
  simp [Nat.shiftRight_eq_div_pow]
  rfl

theorem shiftRight_toNat_12 (v : UInt32) : (v >>> 12).toNat = v.toNat / 4096 := by
  show (v.toBitVec >>> (UInt32.mod 12 32).toBitVec).toNat = _
  have h : (UInt32.mod 12 32).toBitVec = 12#32 := by decide
  rw [h]
  show (v.toBitVec >>> (12#32).toNat).toNat = _
  rw [BitVec.toNat_ushiftRight]
  simp [Nat.shiftRight_eq_div_pow]
  rfl

theorem shiftRight_toNat_18 (v : UInt32) : (v >>> 18).toNat = v.toNat / 262144 := by
  show (v.toBitVec >>> (UInt32.mod 18 32).toBitVec).toNat = _
  have h : (UInt32.mod 18 32).toBitVec = 18#32 := by decide
  rw [h]
  show (v.toBitVec >>> (18#32).toNat).toNat = _
  rw [BitVec.toNat_ushiftRight]
  simp [Nat.shiftRight_eq_div_pow]
  rfl

theorem toUInt8_toNat (v : UInt32) : v.toUInt8.toNat = v.toNat % 256 := by
  show (BitVec.ofNat 8 v.toNat).toNat = _
  simp

set_option maxRecDepth 100000 in
/-- The bytes `utf8EncodeChar` builds with masks, as numbers. -/
theorem byte_masks (x : UInt8) :
    (x &&& 0x3f ||| 0x80).toNat = 0x80 + x.toNat % 64 ∧
    (x &&& 0x1f ||| 0xc0).toNat = 0xC0 + x.toNat % 32 ∧
    (x &&& 0x0f ||| 0xe0).toNat = 0xE0 + x.toNat % 16 ∧
    (x &&& 0x07 ||| 0xf0).toNat = 0xF0 + x.toNat % 8 := by
  have h : ∀ k : Fin 256,
      ((k.val &&& 0x3f) ||| 0x80) = 0x80 + k.val % 64 ∧
      ((k.val &&& 0x1f) ||| 0xc0) = 0xC0 + k.val % 32 ∧
      ((k.val &&& 0x0f) ||| 0xe0) = 0xE0 + k.val % 16 ∧
      ((k.val &&& 0x07) ||| 0xf0) = 0xF0 + k.val % 8 := by decide
  exact h ⟨x.toNat, x.toBitVec.isLt⟩

theorem decodeRune_one (b0 : UInt8) (rest : List UInt8) (n : Nat)
    (h0 : b0.toNat = n) (hn : n < 0x80) :
    decodeRune (b0 :: rest) = some (Char.ofNat n, rest) := by
  simp only [decodeRune, h0]
  rw [if_pos hn]

theorem decodeRune_two (b0 b1 : UInt8) (rest : List UInt8) (n : Nat)
    (h0 : b0.toNat = 0xC0 + n / 64) (h1 : b1.toNat = 0x80 + n % 64)
    (hlo : 0x80 ≤ n) (hhi : n ≤ 0x7ff) :
    decodeRune (b0 :: b1 :: rest) = some (Char.ofNat n, rest) := by
  have hval : (192 + n / 64 - 192) * 64 + (128 + n % 64 - 128) = n := by omega
  simp only [decodeRune, isContinuation, h0, h1, Bool.and_eq_true, decide_eq_true_eq, hval]
  rw [if_neg (by omega), if_neg (by omega), if_pos (by omega), if_pos (by omega)]

theorem decodeRune_three (b0 b1 b2 : UInt8) (rest : List UInt8) (n : Nat)
    (h0 : b0.toNat = 0xE0 + n / 4096) (h1 : b1.toNat = 0x80 + n / 64 % 64)
    (h2 : b2.toNat = 0x80 + n % 64)
    (hlo : 0x800 ≤ n) (hhi : n ≤ 0xffff) (hsur : ¬ (0xD800 ≤ n ∧ n ≤ 0xDFFF)) :
    decodeRune (b0 :: b1 :: b2 :: rest) = some (Char.ofNat n, rest) := by
  have hval : (224 + n / 4096 - 224) * 4096 + (128 + n / 64 % 64 - 128) * 64 +
      (128 + n % 64 - 128) = n := by omega
  simp only [decodeRune, isContinuation, h0, h1, h2, Bool.and_eq_true, decide_eq_true_eq, hval]
  rw [if_neg (by omega), if_neg (by omega), if_neg (by omega), if_pos (by omega),
    if_pos (by omega)]

theorem decodeRune_four (b0 b1 b2 b3 : UInt8) (rest : List UInt8) (n : Nat)
    (h0 : b0.toNat = 0xF0 + n / 262144) (h1 : b1.toNat = 0x80 + n / 4096 % 64)
    (h2 : b2.toNat = 0x80 + n / 64 % 64) (h3 : b3.toNat = 0x80 + n % 64)
    (hlo : 0x10000 ≤ n) (hhi : n < 0x110000) :
    decodeRune (b0 :: b1 :: b2 :: b3 :: rest) = some (Char.ofNat n, rest) := by
  have hval : (240 + n / 262144 - 240) * 262144 + (128 + n / 4096 % 64 - 128) * 4096 +
      (128 + n / 64 % 64 - 128) * 64 + (128 + n % 64 - 128) = n := by omega
  simp only [decodeRune, isContinuation, h0, h1, h2, h3, Bool.and_eq_true, decide_eq_true_eq,
    hval]
  rw [if_neg (by omega), if_neg (by omega), if_neg (by omega), if_neg (by omega),
    if_pos (by omega), if_pos (by omega)]

/-- Decoding reads back the rune that was encoded. -/
theorem decodeRune_encode (c : Char) (rest : List UInt8) :
    decodeRune (String.utf8EncodeChar c ++ rest) = some (c, rest) := by
  have hvalid : c.toNat < 0xd800 ∨ (0xdfff < c.toNat ∧ c.toNat < 0x110000) := c.valid
  have hn : c.val.toNat = c.toNat := rfl
  have hof := Char.ofNat_toNat c
  have hb0 := toUInt8_toNat c.val
  have hb6 := toUInt8_toNat (c.val >>> 6)
  have hb12 := toUInt8_toNat (c.val >>> 12)
  have hb18 := toUInt8_toNat (c.val >>> 18)
  rw [shiftRight_toNat_6] at hb6
  rw [shiftRight_toNat_12] at hb12
  rw [shiftRight_toNat_18] at hb18
  rw [hn] at hb0 hb6 hb12 hb18
  have m0 := byte_masks c.val.toUInt8
  have m6 := byte_masks (c.val >>> 6).toUInt8
  have m12 := byte_masks (c.val >>> 12).toUInt8
  have m18 := byte_masks (c.val >>> 18).toUInt8
  unfold String.utf8EncodeChar
  dsimp only
  by_cases h1 : c.val ≤ 0x7f
  · have h1n : c.toNat ≤ 127 := h1
    rw [if_pos h1, List.singleton_append,
      decodeRune_one _ rest c.toNat (by omega) (by omega), hof]
  · have h1n : ¬ c.toNat ≤ 127 := h1
    rw [if_neg h1]
    by_cases h2 : c.val ≤ 0x7ff
    · have h2n : c.toNat ≤ 2047 := h2
      rw [if_pos h2]
      simp only [List.cons_append, List.nil_append]
      rw [decodeRune_two _ _ rest c.toNat (by omega) (by omega) (by omega) (by omega), hof]
    · have h2n : ¬ c.toNat ≤ 2047 := h2
      rw [if_neg h2]
      by_cases h3 : c.val ≤ 0xffff
      · have h3n : c.toNat ≤ 65535 := h3
        rw [if_pos h3]
        simp only [List.cons_append, List.nil_append]
        rw [decodeRune_three _ _ _ rest c.toNat (by omega) (by omega) (by omega) (by omega)
          (by omega) (by omega), hof]
      · have h3n : ¬ c.toNat ≤ 65535 := h3
        rw [if_neg h3]
        simp only [List.cons_append, List.nil_append]
        have hlo : 0x10000 ≤ c.toNat := by omega
        have hhi : c.toNat < 0x110000 := by omega
        have e0 : ((c.val >>> 18).toUInt8 &&& 0x07 ||| 0xf0).toNat =
            0xF0 + c.toNat / 262144 := by
          rw [m18.2.2.2, hb18]
          clear m0 m6 m12 m18 hb0 hb6 hb12 hb18 hof hn h1 h2 h3 hvalid
          omega
        have e1 : ((c.val >>> 12).toUInt8 &&& 0x3f ||| 0x80).toNat =
            0x80 + c.toNat / 4096 % 64 := by
          rw [m12.1, hb12]
          clear m0 m6 m12 m18 hb0 hb6 hb12 hb18 hof hn h1 h2 h3 hvalid
          omega
        have e2 : ((c.val >>> 6).toUInt8 &&& 0x3f ||| 0x80).toNat =
            0x80 + c.toNat / 64 % 64 := by
          rw [m6.1, hb6]
          clear m0 m6 m12 m18 hb0 hb6 hb12 hb18 hof hn h1 h2 h3 hvalid
          omega
        have e3 : (c.val.toUInt8 &&& 0x3f ||| 0x80).toNat = 0x80 + c.toNat % 64 := by
          rw [m0.1, hb0]
          clear m0 m6 m12 m18 hb0 hb6 hb12 hb18 hof hn h1 h2 h3 hvalid
          omega
        rw [decodeRune_four _ _ _ _ rest c.toNat e0 e1 e2 e3 hlo hhi, hof]

theorem encode_length_pos (c : Char) : 0 < (String.utf8EncodeChar c).length := by
  rw [String.length_utf8EncodeChar]
  exact Char.utf8Size_pos c

/-- Decoding the encoding of a text gives the text, with enough fuel. -/
theorem utf8DecodeLoop_encode (runes : List Char) :
    ∀ fuel, (runes.flatMap String.utf8EncodeChar).length ≤ fuel →
      utf8DecodeLoop fuel (runes.flatMap String.utf8EncodeChar) = some runes := by
  induction runes with
  | nil => intro fuel _; cases fuel <;> simp [utf8DecodeLoop]
  | cons c runes ih =>
    intro fuel hfuel
    rw [List.flatMap_cons] at hfuel ⊢
    have hpos := encode_length_pos c
    rw [List.length_append] at hfuel
    cases fuel with
    | zero => omega
    | succ fuel =>
      cases hbytes : String.utf8EncodeChar c with
      | nil => rw [hbytes] at hpos; simp at hpos
      | cons b bs =>
        rw [List.cons_append, utf8DecodeLoop, ← List.cons_append, ← hbytes,
          decodeRune_encode c]
        simp only
        rw [ih fuel (by omega)]
        rfl

/-- Decoding the encoding of a text gives the text. -/
theorem utf8Decode_encode (s : String) :
    utf8Decode (s.data.flatMap String.utf8EncodeChar) = some s.data :=
  utf8DecodeLoop_encode s.data _ (Nat.le_refl _)

/-- C12.  For every raw string s, `convert` with the token "string" succeeds
and returns s itself, and `convert` with the token "[]uint8" succeeds and
returns the bytes of s, its UTF-8 encoding, from which the text s is read
back; neither fails, whatever the runtime.  The text \x7b"foo": "bar"\x7d
converts to its 14 bytes. -/
theorem convert_string_bytes :
    (∀ (rt : Runtime) (s : String), convert rt "string" s = Except.ok (Value.string s)) ∧
    (∀ (rt : Runtime) (s : String),
      convert rt "[]uint8" s = Except.ok (Value.bytes s.toUTF8.data.toList)) ∧
    (∀ s : String, (utf8Decode s.toUTF8.data.toList).map String.mk = some s) ∧
    (∀ rt : Runtime, convert rt "[]uint8" "\x7b\"foo\": \"bar\"\x7d" =
      Except.ok (Value.bytes
        [123, 34, 102, 111, 111, 34, 58, 32, 34, 98, 97, 114, 34, 125])) ∧
    utf8Decode [123, 34, 102, 111, 111, 34, 58, 32, 34, 98, 97, 114, 34, 125] =
      some "\x7b\"foo\": \"bar\"\x7d".data := by
  refine ⟨?_, ?_, ?_, ?_, by decide⟩
  · intro rt s; simp [convert]
  · intro rt s; simp [convert, String.toUTF8]
  · intro s
    show (utf8Decode (s.data.flatMap String.utf8EncodeChar)).map String.mk = some s
    rw [utf8Decode_encode]
    rfl
  · intro rt
    have h : ("\x7b\"foo\": \"bar\"\x7d" : String).data.flatMap String.utf8EncodeChar =
        [123, 34, 102, 111, 111, 34, 58, 32, 34, 98, 97, 114, 34, 125] := by decide
    simp [convert, h]

end inputs
